import Mathlib

/-!
Verification of the Production Data Hub data-access core.

This file gives a shallow embedding, in Lean 4, of the routing, federation,
caching, rate-limiting, sandbox-validation, watcher-stabilization and
cursor-encoding logic of the repository, together with theorems settling the
specification claims about those components.

Conventions of the embedding:
- Python strings are modelled as `List Char` (Unicode scalar values), compared
  with the lexicographic order on `List Char` (Mathlib's `LinearOrder`
  instance), which agrees with Python's code-point string comparison.
- Python floats used as POSIX timestamps / mtimes are modelled as exact
  rationals `ℚ`; `int(x)` on a nonnegative value is `Int.floor`.
- Fallible operations return `Option` / `Except`; raising-and-catching in the
  source corresponds to a `none` / `.error` result.
-/

namespace Hub

/-! ## Range Router (`shared/database.py`)

`DBTargets` and `DBRouter.pick_targets`, translated from
`src/shared/database.py`.  Date strings (`YYYY-MM-DD`) are `List Char`
compared lexicographically, exactly as Python compares `str` values.
-/

/-- `ARCHIVE_CUTOFF_DATE` from `shared/config.py`: `f"{2026}-01-01"`. -/
def ARCHIVE_CUTOFF_DATE : List Char := "2026-01-01".data

/-- `DBTargets` dataclass: which databases need to be queried. -/
structure DBTargets where
  use_archive : Bool
  use_live : Bool
deriving DecidableEq, Repr

/-- `DBTargets.need_union`: true iff both DBs are queried. -/
def DBTargets.need_union (t : DBTargets) : Bool :=
  t.use_archive && t.use_live

/-- `DBRouter.pick_targets(date_from, date_to)` from `shared/database.py`
(lines 188-237).  `none` models Python `None`; comparisons are the string
comparisons of the source (`date_to >= cutoff`, `date_from < cutoff`). -/
def pick_targets (date_from : Option (List Char)) (date_to : Option (List Char)) :
    DBTargets :=
  let cutoff := ARCHIVE_CUTOFF_DATE
  match date_from, date_to with
  | none, none => ⟨true, true⟩
  | none, some dt => ⟨true, decide (dt ≥ cutoff)⟩
  | some df, none => ⟨decide (df < cutoff), true⟩
  | some df, some dt => ⟨decide (df < cutoff), decide (dt ≥ cutoff)⟩

/-! ## Rate limiter (`shared/rate_limiter.py`)

`RateLimiter.is_allowed` and `RateLimiter.retry_after`, translated from
`src/shared/rate_limiter.py`.  A client's window is its list of request
timestamps; `time.time()` values are rationals.  `is_allowed` returns the
boolean decision together with the updated timestamp list (the source mutates
`self._requests[ip]` in place, under one lock). -/

/-- One `is_allowed(ip)` call (lines 57-85): prune timestamps at or before
`now - window`, admit iff the remaining count is below `max_requests`,
and record the new timestamp on admission. -/
def is_allowed (max_requests : ℕ) (window_seconds : ℚ) (now : ℚ)
    (ts : List ℚ) : Bool × List ℚ :=
  let cutoff_time := now - window_seconds
  let pruned := ts.filter (fun x => decide (x > cutoff_time))
  if pruned.length < max_requests then (true, pruned ++ [now])
  else (false, pruned)

/-- `retry_after(ip)` (lines 111-141): `0` when no timestamp survives the
window, otherwise `max(1, int(oldest + window - now) + 1)`.  The `int()`
truncation is `Int.floor` (its argument is positive whenever the window is
nonempty, where truncation and floor agree). -/
def retry_after (window_seconds : ℚ) (now : ℚ) (ts : List ℚ) : ℤ :=
  let cutoff_time := now - window_seconds
  let valid := ts.filter (fun x => decide (x > cutoff_time))
  match valid with
  | [] => 0
  | v :: vs => max 1 (⌊vs.foldl min v + window_seconds - now⌋ + 1)

/-- A sequence of `is_allowed` calls for one client: returns how many calls
were admitted and the final timestamp list. -/
def run_calls (max_requests : ℕ) (window_seconds : ℚ) :
    List ℚ → List ℚ → ℕ × List ℚ
  | [], ts => (0, ts)
  | now :: rest, ts =>
    let step := is_allowed max_requests window_seconds now ts
    let tail := run_calls max_requests window_seconds rest step.2
    ((if step.1 then 1 else 0) + tail.1, tail.2)

/-! ## Watcher stabilization (`tools/watcher.py`)

`wait_for_stabilization` (lines 116-137) re-reads the store file's
`(mtime, size)` and, when consecutive reads differ, calls ITSELF again with
no retry counter of any kind.  We model the successive `get_file_state`
results as a stream `obs : ℕ → σ` (σ abstracts the `(mtime, size)` pair) and
make the unbounded restart recursion explicit with a `fuel` argument that is
spent ONLY on restarts: `waitInner … fuel = none` means the source function
restarted itself more than `fuel` times (so if the result is `none` for
every `fuel`, the source recursion never returns). -/

/-- `STABILIZATION_CHECKS` from `tools/watcher.py`. -/
def STABILIZATION_CHECKS : ℕ := 3

/-- The body of `wait_for_stabilization`: `last` is the last-read state,
`i` the index of the next `get_file_state` result in the stream, `checks`
the remaining iterations of the `for _ in range(STABILIZATION_CHECKS)` loop.
A changed state restarts the whole function (fresh initial read `obs (i+1)`,
full `STABILIZATION_CHECKS` budget), consuming one unit of restart fuel. -/
def waitInner {σ : Type} [DecidableEq σ] (obs : ℕ → σ) (last : σ)
    (i checks fuel : ℕ) : Option Bool :=
  match checks, fuel with
  | 0, _ => some true
  | _ + 1, 0 => none
  | checks' + 1, fuel' + 1 =>
    if obs i ≠ last then waitInner obs (obs (i + 1)) (i + 2) STABILIZATION_CHECKS fuel'
    else waitInner obs last (i + 1) checks' (fuel' + 1)
termination_by (fuel, checks)

/-- `wait_for_stabilization(db_path)` over an observation stream, for a file
that exists throughout: initial read `obs 0`, then the check loop. -/
def wait_for_stabilization {σ : Type} [DecidableEq σ] (obs : ℕ → σ) (fuel : ℕ) :
    Option Bool :=
  waitInner obs (obs 0) 1 STABILIZATION_CHECKS fuel

/-! ## Query sandbox (`api/tools.py`)

`_strip_sql_comments` and the validation pipeline of `execute_custom_query`
(lines 500-504 and 538-580), translated over `List Char`.  `str.strip()` /
`str.upper()` use Python's ASCII whitespace set and ASCII case mapping (all
inputs of interest are ASCII). -/

/-- Python `str.strip()` whitespace characters. -/
def isPyWhitespace (c : Char) : Bool :=
  c = ' ' || c = '\t' || c = '\n' || c = '\r' || c = '\x0b' || c = '\x0c'

/-- Python `str.strip()`: remove leading and trailing whitespace. -/
def pyStrip (l : List Char) : List Char :=
  ((l.dropWhile isPyWhitespace).reverse.dropWhile isPyWhitespace).reverse

/-- Locate the first `*/` and return the remainder after it (the resumption
point of the regex scan), or `none` when the block comment never closes. -/
def findBlockClose : List Char → Option (List Char)
  | [] => none
  | '*' :: '/' :: rest => some rest
  | _ :: rest => findBlockClose rest

/-- One pass of `re.sub(r'/\*.*?\*/', ' ', sql, flags=re.DOTALL)`: each
shortest `/* … */` span is replaced by one space; a `/*` with no later `*/`
matches nothing and is kept verbatim.  The `fuel` argument (instantiated
with the input length, which always suffices) makes the recursion
structural so concrete inputs evaluate by kernel reduction. -/
def stripBlockAux : ℕ → List Char → List Char
  | 0, l => l
  | _, [] => []
  | fuel + 1, '/' :: '*' :: rest =>
    match findBlockClose rest with
    | some rem => ' ' :: stripBlockAux fuel rem
    | none => '/' :: '*' :: rest
  | fuel + 1, c :: rest => c :: stripBlockAux fuel rest

/-- Block-comment stripping (`re.sub(r'/\*.*?\*/', ' ', sql, re.DOTALL)`). -/
def stripBlockComments (l : List Char) : List Char :=
  stripBlockAux l.length l

/-- `re.sub(r'--[^\n]*', ' ', sql)`: each `--` and everything up to (not
including) the next newline is replaced by one space. -/
def stripLineAux : ℕ → List Char → List Char
  | 0, l => l
  | _, [] => []
  | fuel + 1, '-' :: '-' :: rest =>
    ' ' :: stripLineAux fuel (rest.dropWhile (fun c => c ≠ '\n'))
  | fuel + 1, c :: rest => c :: stripLineAux fuel rest

/-- Line-comment stripping (`re.sub(r'--[^\n]*', ' ', sql)`). -/
def stripLineComments (l : List Char) : List Char :=
  stripLineAux l.length l

/-- `_strip_sql_comments(sql)` from `api/tools.py` lines 500-504: block
comments, then line comments, then `strip()`. -/
def strip_sql_comments (sql : List Char) : List Char :=
  pyStrip (stripLineComments (stripBlockComments sql))

/-- Python substring test `p in l`. -/
def containsSub (p : List Char) : List Char → Bool
  | [] => p.isEmpty
  | c :: rest => p.isPrefixOf (c :: rest) || containsSub p rest

/-- Number of positions of `l` at which the pattern `p` starts. -/
def countSub (p : List Char) : List Char → ℕ
  | [] => 0
  | c :: rest => (if p.isPrefixOf (c :: rest) then 1 else 0) + countSub p rest

/-- The rejection categories of `execute_custom_query` (each corresponds to
one of the source's error messages). -/
inductive SqlError where
  | semicolon
  | nonSelect
  | forbiddenKeyword (kw : List Char)
  | noTableReference
deriving DecidableEq, Repr

/-- The `forbidden` keyword denylist of `execute_custom_query`, in source
order (the source returns the error of the first keyword found). -/
def FORBIDDEN_KEYWORDS : List (List Char) :=
  ["DROP".data, "DELETE".data, "UPDATE".data, "INSERT".data, "ALTER".data,
   "TRUNCATE".data, "CREATE".data, "REPLACE".data, "PRAGMA".data, "ATTACH".data,
   "DETACH".data, "VACUUM".data, "REINDEX".data, "LOAD_EXTENSION".data,
   "SQLITE_".data, "EXEC(".data, "EXECUTE".data, "SYSTEM".data, "SCRIPT".data,
   "JAVASCRIPT".data, "EVAL".data]

/-- `sql_clean` of `execute_custom_query`: `_strip_sql_comments(sql.strip())`. -/
def cleanOf (sql : List Char) : List Char :=
  strip_sql_comments (pyStrip sql)

/-- `sql_upper` of `execute_custom_query`: `sql_clean.upper()`. -/
def upperOf (sql : List Char) : List Char :=
  (cleanOf sql).map Char.toUpper

/-- The validation-and-cap portion of `execute_custom_query` (lines
538-580): comment stripping, the four ordered checks, and the `LIMIT 1000`
cap appended only once every check has passed.  `.ok sql` is the SQL text
that proceeds to execution; `.error e` is returned to the caller without
executing anything. -/
def execute_custom_query_validate (sql : List Char) : Except SqlError (List Char) :=
  let sql_clean := cleanOf sql
  let sql_upper := upperOf sql
  if sql_clean.contains ';' = true then .error .semicolon
  else if "SELECT".data.isPrefixOf sql_upper = true then
    match FORBIDDEN_KEYWORDS.find? (fun kw => containsSub kw sql_upper) with
    | some kw => .error (.forbiddenKeyword kw)
    | none =>
      if containsSub "PRODUCTION_RECORDS".data sql_upper = true then
        if containsSub "LIMIT".data sql_upper = true then .ok sql_clean
        else .ok (sql_clean ++ " LIMIT 1000".data)
      else .error .noTableReference
  else .error .nonSelect

/-- Decidable equality for `Except` results (for concrete evaluation). -/
instance {ε α : Type} [DecidableEq ε] [DecidableEq α] : DecidableEq (Except ε α) := fun
  | .error e₁, .error e₂ =>
    if h : e₁ = e₂ then .isTrue (by rw [h])
    else .isFalse (by intro hh; cases hh; exact h rfl)
  | .error _, .ok _ => .isFalse (by intro hh; cases hh)
  | .ok _, .error _ => .isFalse (by intro hh; cases hh)
  | .ok a₁, .ok a₂ =>
    if h : a₁ = a₂ then .isTrue (by rw [h])
    else .isFalse (by intro hh; cases hh; exact h rfl)

/-! ## Decimal rendering

Python's decimal rendering of integers (`str(n)`, f-string formatting),
used by `build_union_sql` for `LIMIT {int(limit)}` and by the cache's
store-version string.  Implemented with primitive recursion (the `fuel` is
the number itself, which bounds the digit count) so concrete values reduce
in the kernel. -/

/-- Base-10 digits of `n`, least significant first (`fuel ≥ n` suffices). -/
def natDigitsF : ℕ → ℕ → List ℕ
  | 0, _ => []
  | fuel + 1, n => if n = 0 then [] else n % 10 :: natDigitsF fuel (n / 10)

/-- Base-10 digits of `n`, least significant first. -/
def natDigits (n : ℕ) : List ℕ :=
  natDigitsF n n

/-- Decimal rendering of a natural number, as Python prints it. -/
def natStr (n : ℕ) : List Char :=
  if n = 0 then ['0'] else ((natDigits n).map Nat.digitChar).reverse

/-- Decimal rendering of an integer, as Python prints it. -/
def intStr (z : ℤ) : List Char :=
  if z < 0 then '-' :: natStr z.natAbs else natStr z.natAbs

/-! ## Range federator (`shared/database.py`)

`DBRouter.build_union_sql` (lines 338-399), translated as a function of the
text fragments.  `archive_exists` models `ARCHIVE_DB_FILE.exists()`; the
source skips the archive branch when the file is missing. -/

/-- `DBRouter.build_union_sql(select_columns, where_clause, targets,
order_by, limit, include_source)`: returns the SQL text and the
`params_doubled` flag. -/
def build_union_sql (select_columns where_clause : List Char) (targets : DBTargets)
    (order_by : List Char) (limit : Option ℤ) (include_source : Bool)
    (archive_exists : Bool) : List Char × Bool :=
  let source_col_archive := if include_source then "'archive' AS source, ".data else []
  let source_col_live := if include_source then "'live' AS source, ".data else []
  let archive_sql := "SELECT ".data ++ source_col_archive ++ select_columns ++
    " FROM archive.production_records WHERE ".data ++ where_clause ++
    " AND production_date < ?".data
  let live_sql := "SELECT ".data ++ source_col_live ++ select_columns ++
    " FROM production_records WHERE ".data ++ where_clause ++
    " AND production_date >= ?".data
  let use_archive_part := targets.use_archive && archive_exists
  let body_doubled :=
    if use_archive_part && targets.use_live then
      (archive_sql ++ " UNION ALL ".data ++ live_sql, true)
    else if use_archive_part then (archive_sql, false)
    else if targets.use_live then (live_sql, false)
    else
      ("SELECT ".data ++ source_col_live ++ select_columns ++
        " FROM production_records WHERE 1=0".data, false)
  let wrapped :=
    if order_by.isEmpty then body_doubled.1
    else "SELECT * FROM (".data ++ body_doubled.1 ++ ") ORDER BY ".data ++ order_by
  let final :=
    match limit with
    | none => wrapped
    | some n => wrapped ++ " LIMIT ".data ++ intStr n
  (final, body_doubled.2)

/-! ## Result cache (`shared/cache.py`)

`get_db_version` (lines 35-60) and the `api_cache` decorator (lines 82-120),
translated as functions of the store mtimes, the call time, and explicit
states: the version-string memo (`_db_version_cache` /
`_db_version_timestamp`, kept for `_DB_VERSION_CACHE_TTL = 1.0` seconds)
and the TTL cache contents.  Python's `f"{mtime:.0f}"` rounds half to even;
the md5 over the key material is modelled as the identity on the key
material (the source relies on the hash being collision-free); the
TTLCache's LRU bound (200 entries) is not modelled — no claim counts
entries. -/

/-- Python `f"{x:.0f}"` rounding to a whole number: round half to even. -/
def pyRoundHalfEven (q : ℚ) : ℤ :=
  if q - ⌊q⌋ < 1/2 then ⌊q⌋
  else if 1/2 < q - ⌊q⌋ then ⌊q⌋ + 1
  else if ⌊q⌋ % 2 = 0 then ⌊q⌋ else ⌊q⌋ + 1

/-- The `combined` version string of `get_db_version` (line 55): the two
stores' mtimes, rounded to whole seconds and joined with an underscore
(`f"{live_mtime:.0f}_{archive_mtime:.0f}"`; a missing store file
contributes mtime `0`). -/
def combined_version (live_mtime archive_mtime : ℚ) : List Char :=
  intStr (pyRoundHalfEven live_mtime) ++ "_".data ++ intStr (pyRoundHalfEven archive_mtime)

/-- The version-string memo: `_db_version_cache` (the last returned
version, if any) and `_db_version_timestamp` (when it was computed). -/
structure DbVersionState where
  cache : Option (List Char)
  timestamp : ℚ

/-- `get_db_version()` with its 1-second memoization: when a version
string was computed less than `_DB_VERSION_CACHE_TTL = 1` second ago it is
returned as is — the current mtimes are not consulted; otherwise the
version is recomputed from the mtimes and memoized with the current
time. -/
def get_db_version (st : DbVersionState) (current_time live_mtime archive_mtime : ℚ) :
    List Char × DbVersionState :=
  match st.cache with
  | some v =>
    if current_time - st.timestamp < 1 then (v, st)
    else (combined_version live_mtime archive_mtime,
      ⟨some (combined_version live_mtime archive_mtime), current_time⟩)
  | none =>
    (combined_version live_mtime archive_mtime,
      ⟨some (combined_version live_mtime archive_mtime), current_time⟩)

/-- `_make_cache_key(prefix, *args, **kwargs)`: the key material
`f"{prefix}:{db_ver}:{args}:{sorted(kwargs.items())}"` (argument text
collapsed to one `args` string; the md5 digest of this material is modelled
as the material itself). -/
def make_cache_key (pre db_ver args : List Char) : List Char :=
  pre ++ ":".data ++ db_ver ++ ":".data ++ args

/-- One entry of the `TTLCache`: key, stored result, expiry instant
(insertion time plus TTL). -/
structure CacheEntry (α : Type) where
  key : List Char
  value : α
  expires : ℚ

/-- `cache_key in _api_cache` / `_api_cache[cache_key]` at time `now`: the
stored value whose key matches and whose TTL has not elapsed. -/
def cache_lookup {α : Type} (now : ℚ) (key : List Char) :
    List (CacheEntry α) → Option α
  | [] => none
  | e :: rest =>
    if e.key = key ∧ now < e.expires then some e.value else cache_lookup now key rest

/-- One call through the `api_cache` wrapper, given the version string
`_make_cache_key` obtained from `get_db_version()`: look up under the key
built from prefix, version and arguments; on a hit return the cached
value, on a miss run `compute` and store the result.  The third component
records whether `compute` ran. -/
def api_cache_call {α : Type} (ttl now : ℚ) (pre db_ver args : List Char)
    (compute : α) (st : List (CacheEntry α)) : α × List (CacheEntry α) × Bool :=
  let key := make_cache_key pre db_ver args
  match cache_lookup now key st with
  | some v => (v, st, false)
  | none => (compute, ⟨key, compute, now + ttl⟩ :: st, true)

/-- One call through the `api_cache` wrapper including the version
memoization: `_make_cache_key` invokes `get_db_version()`, so the key is
built from the possibly memoized version string.  Components: result, new
cache contents, whether `compute` ran, and the updated version memo. -/
def api_cache_call_memo {α : Type} (ttl now : ℚ) (pre args : List Char)
    (live_mtime archive_mtime : ℚ) (vst : DbVersionState)
    (compute : α) (st : List (CacheEntry α)) :
    α × List (CacheEntry α) × Bool × DbVersionState :=
  let vres := get_db_version vst now live_mtime archive_mtime
  let res := api_cache_call ttl now pre vres.1 args compute st
  (res.1, res.2.1, res.2.2, vres.2)

/-! ## Pagination cursor (`api/main.py`)

`_encode_cursor` / `_decode_cursor` (lines 104-116):
`base64.urlsafe_b64encode(json.dumps({"d": date, "id": rid, "src": src}).encode())`
and its inverse.  The embedding implements the relevant parts of these
library calls over `List Char` / byte lists:

- `json.dumps` with its defaults (`ensure_ascii=True`, separators `", "` /
  `": "`): full string escaping, including `\uXXXX` escapes and surrogate
  pairs for astral characters, so the serialized text is pure ASCII;
- `json.loads` restricted to the grammar of such canonical serializations
  (strict mode: raw control characters in strings are rejected; lone
  surrogate escapes, unrepresentable in `Char`, are rejected);
- URL-safe base64 with `-`/`_`, `=` padding; decoding discards characters
  outside the alphabet (as `binascii.a2b_base64` does) and fails on groups
  with invalid length or padding;
- UTF-8 restricted to ASCII (the serialized text is ASCII; a decoded byte
  ≥ 128 is conservatively rejected, where Python would instead fail at the
  JSON stage for the tokens considered here).

Every Python exception path is an explicit `none` (the source catches all
exceptions and returns `None`). -/

/-- A decoded cursor: the `{"d": …, "id": …, "src": …}` payload. -/
structure Cursor where
  d : List Char
  id : ℤ
  src : List Char
deriving DecidableEq, Repr

/-- Lowercase hex digit. -/
def hexChar (n : ℕ) : Char :=
  "0123456789abcdef".data.getD n '0'

/-- Four-digit lowercase hex rendering of `n < 0x10000`. -/
def hex4 (n : ℕ) : List Char :=
  [hexChar (n / 4096 % 16), hexChar (n / 256 % 16), hexChar (n / 16 % 16), hexChar (n % 16)]

/-- JSON escaping of one character (`json.dumps` with `ensure_ascii=True`):
quote and backslash escapes, control-character shorthands, `\u00xx` for the
other control characters, `\uxxxx` for non-ASCII, surrogate pairs beyond
the BMP, and the raw character otherwise. -/
def escapeChar (c : Char) : List Char :=
  if c = '"' then ['\\', '"']
  else if c = '\\' then ['\\', '\\']
  else if c.toNat = 8 then ['\\', 'b']
  else if c.toNat = 9 then ['\\', 't']
  else if c.toNat = 10 then ['\\', 'n']
  else if c.toNat = 12 then ['\\', 'f']
  else if c.toNat = 13 then ['\\', 'r']
  else if c.toNat < 32 ∨ 126 < c.toNat then
    if c.toNat ≤ 65535 then '\\' :: 'u' :: hex4 c.toNat
    else
      ('\\' :: 'u' :: hex4 (55296 + (c.toNat - 65536) / 1024)) ++
        ('\\' :: 'u' :: hex4 (56320 + (c.toNat - 65536) % 1024))
  else [c]

/-- JSON escaping of a string body. -/
def escapeStr : List Char → List Char
  | [] => []
  | c :: rest => escapeChar c ++ escapeStr rest

/-- A JSON string literal: quoted escaped body. -/
def jsonStr (s : List Char) : List Char :=
  '"' :: escapeStr s ++ ['"']

/-- `json.dumps({"d": date, "id": rid, "src": src})` with default
separators and key order. -/
def cursorJson (c : Cursor) : List Char :=
  "\x7b\"d\": ".data ++ jsonStr c.d ++ ", \"id\": ".data ++ intStr c.id ++
    ", \"src\": ".data ++ jsonStr c.src ++ "\x7d".data

/-- Hex digit value (`json.loads` accepts either case). -/
def hexVal (c : Char) : Option ℕ :=
  if 48 ≤ c.toNat ∧ c.toNat ≤ 57 then some (c.toNat - 48)
  else if 97 ≤ c.toNat ∧ c.toNat ≤ 102 then some (c.toNat - 87)
  else if 65 ≤ c.toNat ∧ c.toNat ≤ 70 then some (c.toNat - 55)
  else none

/-- Value of four hex digits. -/
def hex4Val (a b c d : Char) : Option ℕ :=
  match hexVal a, hexVal b, hexVal c, hexVal d with
  | some va, some vb, some vc, some vd => some (va * 4096 + vb * 256 + vc * 16 + vd)
  | _, _, _, _ => none

/-- JSON string-body parsing (after the opening quote): returns the decoded
content and the text after the closing quote.  `fuel` (instantiated with
the input length, which suffices since every step consumes at least one
character) makes the recursion structural. -/
def parseStrBody : ℕ → List Char → Option (List Char × List Char)
  | 0, _ => none
  | _ + 1, [] => none
  | _ + 1, '"' :: rest => some ([], rest)
  | fuel + 1, '\\' :: 'u' :: h1 :: h2 :: h3 :: h4 :: rest =>
    match hex4Val h1 h2 h3 h4 with
    | none => none
    | some v =>
      if 55296 ≤ v ∧ v ≤ 56319 then
        match rest with
        | '\\' :: 'u' :: g1 :: g2 :: g3 :: g4 :: rest2 =>
          match hex4Val g1 g2 g3 g4 with
          | none => none
          | some w =>
            if 56320 ≤ w ∧ w ≤ 57343 then
              (parseStrBody fuel rest2).map
                (fun p => (Char.ofNat (65536 + (v - 55296) * 1024 + (w - 56320)) :: p.1, p.2))
            else none
        | _ => none
      else if 56320 ≤ v ∧ v ≤ 57343 then none
      else (parseStrBody fuel rest).map (fun p => (Char.ofNat v :: p.1, p.2))
  | fuel + 1, '\\' :: e :: rest =>
    if e = '"' then (parseStrBody fuel rest).map (fun p => ('"' :: p.1, p.2))
    else if e = '\\' then (parseStrBody fuel rest).map (fun p => ('\\' :: p.1, p.2))
    else if e = '/' then (parseStrBody fuel rest).map (fun p => ('/' :: p.1, p.2))
    else if e = 'b' then (parseStrBody fuel rest).map (fun p => (Char.ofNat 8 :: p.1, p.2))
    else if e = 't' then (parseStrBody fuel rest).map (fun p => (Char.ofNat 9 :: p.1, p.2))
    else if e = 'n' then (parseStrBody fuel rest).map (fun p => (Char.ofNat 10 :: p.1, p.2))
    else if e = 'f' then (parseStrBody fuel rest).map (fun p => (Char.ofNat 12 :: p.1, p.2))
    else if e = 'r' then (parseStrBody fuel rest).map (fun p => (Char.ofNat 13 :: p.1, p.2))
    else none
  | fuel + 1, c :: rest =>
    if c.toNat < 32 then none
    else (parseStrBody fuel rest).map (fun p => (c :: p.1, p.2))

/-- A complete JSON string literal (opening quote, body, closing quote). -/
def parseJsonString (l : List Char) : Option (List Char × List Char) :=
  match l with
  | '"' :: rest => parseStrBody rest.length rest
  | _ => none

/-- Greedy decimal-digit run (value accumulation). -/
def parseNatAux : ℕ → List Char → ℕ → ℕ × List Char
  | 0, l, acc => (acc, l)
  | _ + 1, [], acc => (acc, [])
  | fuel + 1, c :: rest, acc =>
    if 48 ≤ c.toNat ∧ c.toNat ≤ 57 then parseNatAux fuel rest (acc * 10 + (c.toNat - 48))
    else (acc, c :: rest)

/-- A JSON integer (optional minus sign, digit run). -/
def parseInt (l : List Char) : Option (ℤ × List Char) :=
  match l with
  | [] => none
  | c :: rest =>
    if c = '-' then
      match rest.head? with
      | none => none
      | some c2 =>
        if 48 ≤ c2.toNat ∧ c2.toNat ≤ 57 then
          some (-((parseNatAux rest.length rest 0).1 : ℤ), (parseNatAux rest.length rest 0).2)
        else none
    else if 48 ≤ c.toNat ∧ c.toNat ≤ 57 then
      some (((parseNatAux (c :: rest).length (c :: rest) 0).1 : ℤ),
        (parseNatAux (c :: rest).length (c :: rest) 0).2)
    else none

/-- Consume an expected literal prefix. -/
def expectPre (pat l : List Char) : Option (List Char) :=
  if pat.isPrefixOf l then some (l.drop pat.length) else none

/-- `json.loads` on the canonical cursor serialization: the three-field
object with the exact key order and spacing `json.dumps` emits. -/
def parseCursorJson (s : List Char) : Option Cursor :=
  (expectPre "\x7b\"d\": ".data s).bind fun s1 =>
  (parseJsonString s1).bind fun p1 =>
  (expectPre ", \"id\": ".data p1.2).bind fun s3 =>
  (parseInt s3).bind fun p2 =>
  (expectPre ", \"src\": ".data p2.2).bind fun s5 =>
  (parseJsonString s5).bind fun p3 =>
  if p3.2 = "\x7d".data then some ⟨p1.1, p2.1, p3.1⟩ else none

/-- The URL-safe base64 alphabet (`+`/`/` replaced by `-`/`_`). -/
def B64_ALPHABET : List Char :=
  "ABCDEFGHIJKLMNOPQRSTUVWXYZabcdefghijklmnopqrstuvwxyz0123456789-_".data

/-- Character for a 6-bit value. -/
def b64Char (n : ℕ) : Char :=
  B64_ALPHABET.getD n '='

/-- Index lookup in the alphabet. -/
def b64ValAux : List Char → Char → ℕ → Option ℕ
  | [], _, _ => none
  | a :: rest, c, i => if a = c then some i else b64ValAux rest c (i + 1)

/-- 6-bit value of an alphabet character. -/
def b64Val (c : Char) : Option ℕ :=
  b64ValAux B64_ALPHABET c 0

/-- `base64.urlsafe_b64encode` over byte lists: 3-byte groups to 4
characters, `=`-padded tail. -/
def b64encode : List ℕ → List Char
  | [] => []
  | [b1] => [b64Char (b1 / 4), b64Char (b1 % 4 * 16), '=', '=']
  | [b1, b2] => [b64Char (b1 / 4), b64Char (b1 % 4 * 16 + b2 / 16), b64Char (b2 % 16 * 4), '=']
  | b1 :: b2 :: b3 :: rest =>
    b64Char (b1 / 4) :: b64Char (b1 % 4 * 16 + b2 / 16) ::
      b64Char (b2 % 16 * 4 + b3 / 64) :: b64Char (b3 % 64) :: b64encode rest

/-- Decode filtered base64 text in 4-character groups, with `=`-padding
only at the end; any other shape is the error case. -/
def b64DecodeGroups : List Char → Option (List ℕ)
  | [] => some []
  | c1 :: c2 :: c3 :: c4 :: rest =>
    match b64Val c1, b64Val c2 with
    | some v1, some v2 =>
      if c3 = '=' then
        if c4 = '=' ∧ rest = [] then some [v1 * 4 + v2 / 16] else none
      else
        match b64Val c3 with
        | some v3 =>
          if c4 = '=' then
            if rest = [] then some [v1 * 4 + v2 / 16, v2 % 16 * 16 + v3 / 4] else none
          else
            match b64Val c4 with
            | some v4 =>
              (b64DecodeGroups rest).map
                (fun bs => (v1 * 4 + v2 / 16) :: (v2 % 16 * 16 + v3 / 4) ::
                  (v3 % 4 * 64 + v4) :: bs)
            | none => none
        | none => none
    | _, _ => none
  | _ => none

/-- `base64.urlsafe_b64decode`: characters outside the alphabet are
discarded (as `binascii.a2b_base64` does), then group decoding. -/
def b64decode (s : List Char) : Option (List ℕ) :=
  b64DecodeGroups (s.filter (fun c => (b64Val c).isSome || c = '='))

/-- `str.encode()` of ASCII text: the code points as bytes. -/
def asciiBytes (l : List Char) : List ℕ :=
  l.map Char.toNat

/-- `bytes.decode()` restricted to ASCII. -/
def bytesAscii (bs : List ℕ) : Option (List Char) :=
  if bs.all (fun b => b < 128) then some (bs.map Char.ofNat) else none

/-- `_encode_cursor(production_date, record_id, source)`. -/
def _encode_cursor (production_date : List Char) (record_id : ℤ) (source : List Char) :
    List Char :=
  b64encode (asciiBytes (cursorJson ⟨production_date, record_id, source⟩))

/-- `_decode_cursor(cursor)`: base64, UTF-8, JSON; `none` on any failure
(the source catches every exception and returns `None`). -/
def _decode_cursor (cursor : List Char) : Option Cursor :=
  (b64decode cursor).bind fun bs =>
  (bytesAscii bs).bind fun s =>
  parseCursorJson s

end Hub

/-! # Theorems -/

namespace Hub

/-- C1. The claim states `use_live` is true iff `date_to > cutoff`, so that
`date_to` exactly equal to the cutoff excludes live.  The source compares
with `>=` (`use_live=(date_to >= cutoff)`), and its own unit test
(`test_cutoff_as_date_to_exclusive`) confirms this: for
`date_from = "2025-11-01"`, `date_to = "2026-01-01"` (the cutoff itself),
`pick_targets` includes live even though `date_to > cutoff` is false. -/
theorem pick_targets_cutoff_to_includes_live :
    (pick_targets (some "2025-11-01".data) (some "2026-01-01".data)).use_live = true
    ∧ ¬ ("2026-01-01".data > ARCHIVE_CUTOFF_DATE) := by
  constructor
  · decide
  · decide

/-- C1 (amended): with both bounds given, archive is included iff
`date_from < cutoff`, and live is included iff `date_to ≥ cutoff` — so a
`date_to` exactly equal to the cutoff still includes live. -/
theorem pick_targets_both_bounds (df dt : List Char) :
    ((pick_targets (some df) (some dt)).use_archive = true ↔ df < ARCHIVE_CUTOFF_DATE)
    ∧ ((pick_targets (some df) (some dt)).use_live = true ↔ ARCHIVE_CUTOFF_DATE ≤ dt) := by
  constructor <;> simp [pick_targets]

/-- C10. `pick_targets` never returns the both-false `DBTargets` when either
bound is absent, or when both bounds are given in order (`date_from ≤
date_to`); the both-false value is reachable only for a reversed range:
whenever both flags are false, both bounds were given and `date_to <
date_from` (indeed `date_to < cutoff ≤ date_from`). -/
theorem pick_targets_some_store_selected (df dt : Option (List Char)) :
    ((df = none ∨ dt = none) →
      ((pick_targets df dt).use_archive || (pick_targets df dt).use_live) = true)
    ∧ (∀ f t, df = some f → dt = some t → f ≤ t →
      ((pick_targets df dt).use_archive || (pick_targets df dt).use_live) = true)
    ∧ ((pick_targets df dt).use_archive = false → (pick_targets df dt).use_live = false →
      ∃ f t, df = some f ∧ dt = some t ∧
        ARCHIVE_CUTOFF_DATE ≤ f ∧ t < ARCHIVE_CUTOFF_DATE ∧ t < f) := by
  refine ⟨?_, ?_, ?_⟩
  · rintro (rfl | rfl)
    · cases dt <;> simp [pick_targets]
    · cases df <;> simp [pick_targets]
  · rintro f t rfl rfl hle
    by_cases h : f < ARCHIVE_CUTOFF_DATE
    · simp [pick_targets, h]
    · have : ARCHIVE_CUTOFF_DATE ≤ t := le_trans (not_lt.mp h) hle
      simp [pick_targets, this]
  · intro ha hl
    cases df with
    | none => cases dt <;> simp [pick_targets] at ha hl
    | some f =>
      cases dt with
      | none => simp [pick_targets] at hl
      | some t =>
        simp [pick_targets] at ha hl
        exact ⟨f, t, rfl, rfl, ha, hl, lt_of_lt_of_le hl ha⟩

/-- C10 witness: an ordered in-archive range selects a store. -/
theorem pick_targets_some_store_selected_witness :
    ("2025-01-01".data ≤ "2025-06-01".data)
    ∧ ((pick_targets (some "2025-01-01".data) (some "2025-06-01".data)).use_archive ||
        (pick_targets (some "2025-01-01".data) (some "2025-06-01".data)).use_live) = true :=
  ⟨by decide,
    (pick_targets_some_store_selected (some "2025-01-01".data)
      (some "2025-06-01".data)).2.1 _ _ rfl rfl (by decide)⟩

/-! ### Rate limiter theorems -/

/-- The fold of `min` over a list lands in the list (with its seed). -/
theorem foldl_min_mem {α : Type} [LinearOrder α] (v : α) (vs : List α) :
    vs.foldl min v ∈ v :: vs := by
  induction vs generalizing v with
  | nil => simp
  | cons w ws ih =>
    simp only [List.foldl_cons]
    rcases min_choice v w with hm | hm <;> rw [hm]
    · rcases List.mem_cons.mp (ih v) with h1 | h1
      · simp [h1]
      · simp [List.mem_cons, h1]
    · rcases List.mem_cons.mp (ih w) with h1 | h1
      · simp [h1]
      · simp [List.mem_cons, h1]

/-- C5. The claim predicts `retry_after = max(1, oldest + window − now)` and
a value in `[1, windowSeconds]` whenever the client is rejected.  With
`max_requests = 1`, `window = 60`, a single timestamp taken at `now = 100`
(so the window is at its maximum and `is_allowed` rejects), the source
computes `max(1, int(oldest + window − now) + 1) = 61`: one more than the
window, exceeding both the claimed formula value (`60`) and the claimed
upper bound. -/
theorem retry_after_exceeds_window :
    is_allowed 1 60 100 [100] = (false, [100])
    ∧ retry_after 60 100 [100] = 61
    ∧ ¬ (retry_after 60 100 [100] ≤ 60) := by
  have hf : List.filter (fun x => decide (x > (100 : ℚ) - 60)) [100] = [100] := by
    norm_num
  refine ⟨?_, ?_, ?_⟩
  · simp only [is_allowed, hf]
    norm_num
  · simp only [retry_after, hf, List.foldl_nil]
    norm_num
  · simp only [retry_after, hf, List.foldl_nil]
    norm_num

/-- C5 (amended): when at least one timestamp survives the pruning (the
filtered window is nonempty) and no recorded timestamp lies in the future,
`retry_after` returns `max(1, ⌊oldest + window − now⌋ + 1)`; this value
always lies in `[1, windowSeconds + 1]`, and in `[1, windowSeconds]` when
the oldest surviving timestamp is strictly earlier than `now`. -/
theorem retry_after_formula_and_bounds (wz : ℤ) (window now v : ℚ) (ts vs : List ℚ)
    (hwz : (wz : ℚ) = window) (hw : 1 ≤ wz)
    (hts : ∀ x ∈ ts, x ≤ now)
    (hv : ts.filter (fun x => decide (x > now - window)) = v :: vs) :
    retry_after window now ts = max 1 (⌊vs.foldl min v + window - now⌋ + 1)
    ∧ 1 ≤ retry_after window now ts
    ∧ retry_after window now ts ≤ wz + 1
    ∧ (vs.foldl min v < now → retry_after window now ts ≤ wz) := by
  subst hwz
  have hform : retry_after (wz : ℚ) now ts = max 1 (⌊vs.foldl min v + (wz : ℚ) - now⌋ + 1) := by
    simp only [retry_after, hv]
  have hmem : vs.foldl min v ∈ ts.filter (fun x => decide (x > now - (wz : ℚ))) := by
    rw [hv]; exact foldl_min_mem v vs
  have hle_now : vs.foldl min v ≤ now := hts _ (List.mem_of_mem_filter hmem)
  refine ⟨hform, ?_, ?_, ?_⟩
  · rw [hform]; exact le_max_left 1 _
  · rw [hform]
    have h1 : vs.foldl min v + (wz : ℚ) - now ≤ ((wz : ℚ)) := by linarith
    have h2 : ⌊vs.foldl min v + (wz : ℚ) - now⌋ ≤ wz := by
      calc ⌊vs.foldl min v + (wz : ℚ) - now⌋ ≤ ⌊((wz : ℚ))⌋ := Int.floor_mono h1
        _ = wz := Int.floor_intCast wz
    exact max_le (by linarith) (by linarith)
  · intro hlt
    rw [hform]
    have h1 : vs.foldl min v + (wz : ℚ) - now < ((wz : ℚ)) := by linarith
    have h2 : ⌊vs.foldl min v + (wz : ℚ) - now⌋ < wz := Int.floor_lt.mpr h1
    exact max_le hw (by omega)

/-- C5 witness: two timestamps, one expired; oldest surviving is `70 < 100`,
`retry_after = max(1, ⌊70 + 60 − 100⌋ + 1) = 31 ∈ [1, 60]`. -/
theorem retry_after_formula_and_bounds_witness :
    ((60 : ℚ) : ℚ) = 60 ∧ (1 : ℤ) ≤ 60
    ∧ (∀ x ∈ ([30, 70] : List ℚ), x ≤ 100)
    ∧ ([30, 70] : List ℚ).filter (fun x => decide (x > (100 : ℚ) - 60)) = [70]
    ∧ retry_after 60 100 [30, 70] = max 1 (⌊([] : List ℚ).foldl min 70 + (60 : ℚ) - 100⌋ + 1)
    ∧ retry_after 60 100 [30, 70] ≤ 60 + 1 := by
  have h1 : ((60 : ℤ) : ℚ) = 60 := by norm_num
  have h3 : ∀ x ∈ ([30, 70] : List ℚ), x ≤ 100 := by
    intro x hx
    rcases List.mem_cons.mp hx with rfl | hx
    · norm_num
    · rcases List.mem_cons.mp hx with rfl | hx
      · norm_num
      · simp at hx
  have h4 : ([30, 70] : List ℚ).filter (fun x => decide (x > (100 : ℚ) - 60)) = [70] := by
    norm_num
  have main := retry_after_formula_and_bounds 60 60 100 70 [30, 70] [] h1 (by norm_num) h3 h4
  exact ⟨by norm_num, by norm_num, h3, h4, main.1, main.2.2.1⟩

/-- Auxiliary invariant for `run_calls`: if every pending timestamp survives
every future pruning and all future calls lie within one window of each
earlier one, the number of admitted calls is
`min (#calls) (max_requests − #pending)`. -/
theorem run_calls_count_aux (maxR : ℕ) (window : ℚ) :
    ∀ (calls ts : List ℚ),
      calls.Pairwise (fun a b => b < a + window) →
      (∀ x ∈ ts, ∀ t ∈ calls, t - window < x) →
      (run_calls maxR window calls ts).1 = min calls.length (maxR - ts.length) := by
  intro calls
  induction calls with
  | nil => intro ts _ _; simp [run_calls]
  | cons now rest ih =>
    intro ts hpw hts
    have hfilter : ts.filter (fun x => decide (x > now - window)) = ts := by
      rw [List.filter_eq_self]
      intro x hx
      exact decide_eq_true (hts x hx now (List.mem_cons_self _ _))
    have hpw_rest : rest.Pairwise (fun a b => b < a + window) :=
      (List.pairwise_cons.mp hpw).2
    have hnow_rest : ∀ t ∈ rest, t < now + window := (List.pairwise_cons.mp hpw).1
    simp only [run_calls, is_allowed, hfilter]
    by_cases hlen : ts.length < maxR
    · have hts' : ∀ x ∈ ts ++ [now], ∀ t ∈ rest, t - window < x := by
        intro x hx t ht
        rcases List.mem_append.mp hx with hx | hx
        · exact hts x hx t (List.mem_cons_of_mem _ ht)
        · rcases List.mem_singleton.mp hx with rfl
          have := hnow_rest t ht
          linarith
      have hrec := ih (ts ++ [now]) hpw_rest hts'
      have hlen2 : (ts ++ [now]).length = ts.length + 1 := by simp
      rw [if_pos hlen]
      simp only [hrec, hlen2, List.length_cons, if_true, eq_self_iff_true]
      omega
    · have hrec := ih ts hpw_rest (fun x hx t ht => hts x hx t (List.mem_cons_of_mem _ ht))
      rw [if_neg hlen]
      simp only [hrec, List.length_cons, Bool.false_eq_true, if_false]
      omega

/-- C6. For one client whose calls all fall inside a single trailing window
(each call is within `window` of every earlier one), starting from an empty
window, exactly `min (#calls) max_requests` calls are admitted — so exactly
`max_requests` succeed and the `(max_requests+1)`th is rejected.  Each call
prunes timestamps at or before `now − window`, admits iff the surviving
count is strictly below `max_requests`, and records the admitted timestamp
(`is_allowed` returns decision and updated window together, as the source
does under its single lock). -/
theorem run_calls_window_count (maxR : ℕ) (window : ℚ) (calls : List ℚ)
    (hpw : calls.Pairwise (fun a b => b < a + window)) :
    (run_calls maxR window calls []).1 = min calls.length maxR := by
  have := run_calls_count_aux maxR window calls [] hpw (by intro x hx; simp at hx)
  simpa using this

/-- C6 witness: three calls inside one window with `max_requests = 2` admit
exactly two. -/
theorem run_calls_window_count_witness :
    ([0, 1, 2] : List ℚ).Pairwise (fun a b => b < a + 10)
    ∧ (run_calls 2 10 [0, 1, 2] []).1 = min ([0, 1, 2] : List ℚ).length 2 := by
  have hpw : ([0, 1, 2] : List ℚ).Pairwise (fun a b => b < a + 10) := by
    norm_num [List.pairwise_cons]
  exact ⟨hpw, run_calls_window_count 2 10 [0, 1, 2] hpw⟩

/-! ### Watcher theorems -/

/-- Against a stream whose state differs at every read, every restart budget
is exhausted: the loop's first comparison always differs, so the function
restarts itself, forever. -/
theorem waitInner_all_changing_none :
    ∀ (fuel last i : ℕ), last ≠ i →
      waitInner (fun n => n) last i STABILIZATION_CHECKS fuel = none := by
  intro fuel
  induction fuel with
  | zero =>
    intro last i _
    rw [waitInner.eq_def]
    rfl
  | succ fuel ih =>
    intro last i hne
    rw [show STABILIZATION_CHECKS = 2 + 1 from rfl, waitInner.eq_def]
    simp only [if_pos (Ne.symm hne)]
    exact ih (i + 1) (i + 2) (by omega)

/-- C3. The claim asserts the stabilization wait is bounded by a maximum
retry count, abandoning the cycle when the bound is exceeded.  The source
has no such bound: `wait_for_stabilization` calls itself recursively on
every detected change.  Against a store whose `(mtime, size)` differs at
every read (observation stream `n ↦ n`), the recursion restarts more times
than ANY finite bound — `wait_for_stabilization` never returns, for every
restart budget `fuel`. -/
theorem wait_for_stabilization_unbounded (fuel : ℕ) :
    wait_for_stabilization (fun n => n) fuel = none :=
  waitInner_all_changing_none fuel 0 1 (by omega)

/-! ### Query sandbox theorems -/

/-- C2. The claim says a query containing `DROP`, `PRAGMA`, or a semicolon is
rejected even when it appears inside a comment.  The source strips comments
FIRST and runs every check on the comment-free text, so a query whose
forbidden keywords and semicolon occur only inside a block comment is
accepted (the stripped text — which is what gets executed — no longer
contains them). -/
theorem sandbox_comment_hidden_keywords_pass :
    execute_custom_query_validate "SELECT * FROM production_records /* DROP; PRAGMA */".data
      = .ok "SELECT * FROM production_records LIMIT 1000".data
    ∧ containsSub "DROP".data
        ("SELECT * FROM production_records /* DROP; PRAGMA */".data.map Char.toUpper) = true
    ∧ "SELECT * FROM production_records /* DROP; PRAGMA */".data.contains ';' = true
    ∧ containsSub "PRAGMA".data
        ("SELECT * FROM production_records /* DROP; PRAGMA */".data.map Char.toUpper) = true := by
  refine ⟨?_, ?_, ?_, ?_⟩ <;> decide

/-- C2 (amended): every check runs on the comment-stripped text `sql_clean` /
`sql_upper`.  A remaining semicolon is rejected with the semicolon reason; a
non-`SELECT` start is rejected with the non-SELECT reason; a remaining
`DROP` or `PRAGMA` (in a query that passed the earlier checks) is rejected
with a forbidden-keyword reason naming a keyword actually present.  A
rejected query is never executed (`.error` short-circuits before the
execution step of the source). -/
theorem sandbox_rejects_stripped (sql : List Char) :
    ((cleanOf sql).contains ';' = true →
      execute_custom_query_validate sql = .error .semicolon)
    ∧ ((cleanOf sql).contains ';' = false →
      "SELECT".data.isPrefixOf (upperOf sql) = false →
      execute_custom_query_validate sql = .error .nonSelect)
    ∧ ((cleanOf sql).contains ';' = false →
      "SELECT".data.isPrefixOf (upperOf sql) = true →
      (containsSub "DROP".data (upperOf sql) = true ∨
        containsSub "PRAGMA".data (upperOf sql) = true) →
      ∃ kw, kw ∈ FORBIDDEN_KEYWORDS ∧ containsSub kw (upperOf sql) = true ∧
        execute_custom_query_validate sql = .error (.forbiddenKeyword kw)) := by
  refine ⟨?_, ?_, ?_⟩
  · intro hsemi
    simp only [execute_custom_query_validate]
    rw [if_pos hsemi]
  · intro hsemi hsel
    simp only [execute_custom_query_validate]
    rw [if_neg (by rw [hsemi]; exact Bool.false_ne_true), if_neg (by rw [hsel]; exact Bool.false_ne_true)]
  · intro hsemi hsel hkw
    have hex : ∃ kw ∈ FORBIDDEN_KEYWORDS, containsSub kw (upperOf sql) = true := by
      rcases hkw with h | h
      · exact ⟨"DROP".data, by simp [FORBIDDEN_KEYWORDS], h⟩
      · exact ⟨"PRAGMA".data, by simp [FORBIDDEN_KEYWORDS], h⟩
    cases hfind : FORBIDDEN_KEYWORDS.find? (fun kw => containsSub kw (upperOf sql)) with
    | none =>
      exfalso
      rcases hex with ⟨kw, hmem, hc⟩
      have := List.find?_eq_none.mp hfind kw hmem
      simp [hc] at this
    | some kw =>
      refine ⟨kw, List.mem_of_find?_eq_some hfind,
        List.find?_some (p := fun kw => containsSub kw (upperOf sql)) hfind, ?_⟩
      simp only [execute_custom_query_validate]
      rw [if_neg (by rw [hsemi]; exact Bool.false_ne_true), if_pos hsel, hfind]

/-- C2 witness: a semicolon surviving comment stripping is rejected with the
semicolon reason. -/
theorem sandbox_rejects_stripped_witness :
    (cleanOf "SELECT * FROM production_records; DROP TABLE x".data).contains ';' = true
    ∧ execute_custom_query_validate "SELECT * FROM production_records; DROP TABLE x".data
      = .error .semicolon :=
  ⟨by decide,
    (sandbox_rejects_stripped "SELECT * FROM production_records; DROP TABLE x".data).1
      (by decide)⟩

/-- C8. A query accepted by the sandbox passed every validation check on the
comment-stripped text (so validation never saw the injected cap), and the
executed SQL is the stripped text with ` LIMIT 1000` appended exactly when
no `LIMIT` was present. -/
theorem sandbox_limit_cap (sql final : List Char)
    (h : execute_custom_query_validate sql = .ok final) :
    (cleanOf sql).contains ';' = false
    ∧ "SELECT".data.isPrefixOf (upperOf sql) = true
    ∧ FORBIDDEN_KEYWORDS.find? (fun kw => containsSub kw (upperOf sql)) = none
    ∧ containsSub "PRODUCTION_RECORDS".data (upperOf sql) = true
    ∧ (containsSub "LIMIT".data (upperOf sql) = false →
        final = cleanOf sql ++ " LIMIT 1000".data)
    ∧ (containsSub "LIMIT".data (upperOf sql) = true → final = cleanOf sql) := by
  simp only [execute_custom_query_validate] at h
  by_cases hsemi : (cleanOf sql).contains ';' = true
  · rw [if_pos hsemi] at h; cases h
  rw [if_neg hsemi] at h
  by_cases hsel : "SELECT".data.isPrefixOf (upperOf sql) = true
  · rw [if_pos hsel] at h
    cases hfind : FORBIDDEN_KEYWORDS.find? (fun kw => containsSub kw (upperOf sql)) with
    | some kw => rw [hfind] at h; cases h
    | none =>
      rw [hfind] at h
      by_cases htab : containsSub "PRODUCTION_RECORDS".data (upperOf sql) = true
      · rw [if_pos htab] at h
        by_cases hlim : containsSub "LIMIT".data (upperOf sql) = true
        · rw [if_pos hlim] at h
          refine ⟨Bool.of_not_eq_true hsemi, hsel, rfl, htab, ?_, ?_⟩
          · intro hc; rw [hc] at hlim; cases hlim
          · intro _; cases h; rfl
        · rw [if_neg hlim] at h
          refine ⟨Bool.of_not_eq_true hsemi, hsel, rfl, htab, ?_, ?_⟩
          · intro _; cases h; rfl
          · intro hc; exact absurd hc hlim
      · rw [if_neg htab] at h; cases h
  · rw [if_neg hsel] at h; cases h

/-! ### Substring-counting machinery (for the federator theorems)

`countSub p l` counts the positions of `l` where `p` starts.  The key lemma
`countSub_append` splits a count over a concatenation provided no occurrence
straddles the seam; the `rsc`/`lsc` side conditions reduce straddling to a
decidable check against the concrete text on one side of the seam. -/

/-- A prefix of a concatenation, cut to the first part's length, is a prefix
of the first part. -/
theorem prefix_append_of_le {t c r : List Char} (h : t <+: c ++ r)
    (hlen : t.length ≤ c.length) : t <+: c := by
  have heq := List.prefix_iff_eq_take.mp h
  rw [List.take_append_eq_append_take, Nat.sub_eq_zero_of_le hlen,
    List.take_zero, List.append_nil] at heq
  rw [heq]
  exact List.take_prefix _ _

/-- Truncating a prefix of `c ++ r` to `c`'s length gives a prefix of `c`. -/
theorem prefix_head {t c r : List Char} (h : t <+: c ++ r) :
    t.take c.length <+: c := by
  refine prefix_append_of_le ((List.take_prefix _ _).trans h) ?_
  rw [List.length_take]
  exact inf_le_left

/-- Truncating (the reverse of) a suffix of `x ++ d` to `d`'s length gives a
prefix of `d.reverse`. -/
theorem suffix_head {t x d : List Char} (h : t <:+ x ++ d) :
    t.reverse.take d.length <+: d.reverse := by
  have h' : t.reverse <+: d.reverse ++ x.reverse := by
    have := List.reverse_prefix.mpr h
    rwa [List.reverse_append] at this
  have := prefix_head h'
  rwa [List.length_reverse] at this

/-- Decidable no-straddle condition against the concrete text RIGHT of a
seam. -/
abbrev rsc (p c : List Char) : Prop :=
  ∀ k < p.length, 0 < k → ¬ ((p.drop k).take c.length <+: c)

/-- Decidable no-straddle condition against the concrete text LEFT of a
seam. -/
abbrev lsc (p d : List Char) : Prop :=
  ∀ k < p.length, 0 < k → ¬ ((p.take k).reverse.take d.length <+: d.reverse)

/-- Substring counts add over a seam no occurrence straddles. -/
theorem countSub_append (p : List Char) (hp : p ≠ []) :
    ∀ (a b : List Char),
      (∀ k < p.length, 0 < k → ¬ (p.take k <:+ a ∧ p.drop k <+: b)) →
      countSub p (a ++ b) = countSub p a + countSub p b := by
  intro a
  induction a with
  | nil =>
    intro b _
    have h0 : countSub p [] = 0 := rfl
    simp [h0]
  | cons c a' ih =>
    intro b h
    have h' : ∀ k < p.length, 0 < k → ¬ (p.take k <:+ a' ∧ p.drop k <+: b) := by
      intro k hk hk0 hand
      exact h k hk hk0 ⟨hand.1.trans (List.suffix_cons c a'), hand.2⟩
    have hhead : p.isPrefixOf (c :: (a' ++ b)) = p.isPrefixOf (c :: a') := by
      cases hpre : p.isPrefixOf (c :: a') with
      | true =>
        have hp1 : p <+: (c :: a') ++ b :=
          (List.isPrefixOf_iff_prefix.mp hpre).trans (List.prefix_append _ _)
        rw [List.cons_append] at hp1
        exact List.isPrefixOf_iff_prefix.mpr hp1
      | false =>
        cases hpre2 : p.isPrefixOf (c :: (a' ++ b)) with
        | false => rfl
        | true =>
          exfalso
          have hp2 : p <+: (c :: a') ++ b := by
            rw [List.cons_append]
            exact List.isPrefixOf_iff_prefix.mp hpre2
          by_cases hlen : p.length ≤ (c :: a').length
          · have : p <+: c :: a' := prefix_append_of_le hp2 hlen
            rw [List.isPrefixOf_iff_prefix.mpr this] at hpre
            cases hpre
          · have hxp : (c :: a') <+: p := by
              rcases List.prefix_or_prefix_of_prefix (List.prefix_append (c :: a') b) hp2
                with hh | hh
              · exact hh
              · rw [List.isPrefixOf_iff_prefix.mpr hh] at hpre
                cases hpre
            have htake : p.take (c :: a').length = c :: a' :=
              (List.prefix_iff_eq_take.mp hxp).symm
            have hsplit : (c :: a') ++ p.drop (c :: a').length = p := by
              have h2 := List.take_append_drop (c :: a').length p
              rwa [htake] at h2
            have hdrop : p.drop (c :: a').length <+: b := by
              have hh : (c :: a') ++ p.drop (c :: a').length <+: (c :: a') ++ b := by
                rw [hsplit]
                exact hp2
              exact (List.prefix_append_right_inj _).mp hh
            refine h (c :: a').length (lt_of_not_le hlen) (by simp) ⟨?_, hdrop⟩
            rw [htake]
    show countSub p (c :: (a' ++ b)) = countSub p (c :: a') + countSub p b
    simp only [countSub]
    rw [ih b h', hhead]
    omega

/-- Seam split when the text right of the seam starts with the concrete
segment `c`. -/
theorem countSub_append_rsc (p : List Char) (hp : p ≠ []) (a c r : List Char)
    (h : rsc p c) :
    countSub p (a ++ (c ++ r)) = countSub p a + countSub p (c ++ r) :=
  countSub_append p hp a (c ++ r)
    (fun k hk h0 hand => h k hk h0 (prefix_head hand.2))

/-- Seam split when the text right of the seam is exactly the concrete
segment `c`. -/
theorem countSub_append_rsc_last (p : List Char) (hp : p ≠ []) (a c : List Char)
    (h : rsc p c) :
    countSub p (a ++ c) = countSub p a + countSub p c :=
  countSub_append p hp a c
    (fun k hk h0 hand =>
      h k hk h0 (prefix_head (r := []) ((List.append_nil c).symm ▸ hand.2)))

/-- Seam split when the text left of the seam ends with the concrete
segment `d` (here: is exactly `d`). -/
theorem countSub_append_lsc (p : List Char) (hp : p ≠ []) (d b : List Char)
    (h : lsc p d) :
    countSub p (d ++ b) = countSub p d + countSub p b :=
  countSub_append p hp d b
    (fun k hk h0 hand =>
      h k hk h0 (suffix_head (x := []) (by simpa using hand.1)))

/-- Seam split over an arbitrary left context ending in the concrete
segment `d`. -/
theorem countSub_append_lsc_ctx (p : List Char) (hp : p ≠ []) (x d b : List Char)
    (h : lsc p d) :
    countSub p ((x ++ d) ++ b) = countSub p (x ++ d) + countSub p b :=
  countSub_append p hp (x ++ d) b
    (fun k hk h0 hand => h k hk h0 (suffix_head hand.1))

/-- A pattern starting with a character absent from `l` never occurs. -/
theorem countSub_head_not_mem (c₀ : Char) (p' l : List Char) (h : c₀ ∉ l) :
    countSub (c₀ :: p') l = 0 := by
  induction l with
  | nil => rfl
  | cons d rest ih =>
    have hd : c₀ ≠ d := fun hh => h (hh ▸ List.mem_cons_self d rest)
    have hrest : c₀ ∉ rest := fun hh => h (List.mem_cons_of_mem d hh)
    have hpre : (c₀ :: p').isPrefixOf (d :: rest) = false := by
      cases hp : (c₀ :: p').isPrefixOf (d :: rest) with
      | false => rfl
      | true =>
        exact absurd (List.cons_prefix_iff.mp (List.isPrefixOf_iff_prefix.mp hp)).1 hd
    simp only [countSub, ih hrest, hpre]
    simp

/-- Every digit produced by `natDigitsF` is below ten. -/
theorem natDigitsF_lt (fuel : ℕ) : ∀ (n : ℕ), ∀ d ∈ natDigitsF fuel n, d < 10 := by
  induction fuel with
  | zero => intro n d hd; simp [natDigitsF] at hd
  | succ fuel ih =>
    intro n d hd
    simp only [natDigitsF] at hd
    by_cases h : n = 0
    · rw [if_pos h] at hd; simp at hd
    · rw [if_neg h] at hd
      rcases List.mem_cons.mp hd with rfl | hd
      · exact Nat.mod_lt _ (by omega)
      · exact ih _ d hd

/-- `natStr` renders with decimal digit characters only. -/
theorem natStr_mem (n : ℕ) : ∀ c ∈ natStr n, c ∈ "0123456789".data := by
  intro c hc
  unfold natStr at hc
  by_cases h : n = 0
  · rw [if_pos h] at hc
    rcases List.mem_singleton.mp hc with rfl
    decide
  · rw [if_neg h] at hc
    rcases List.mem_map.mp (List.mem_reverse.mp hc) with ⟨d, hd, rfl⟩
    have hlt : d < 10 := natDigitsF_lt n n d hd
    have hdig : ∀ d < 10, Nat.digitChar d ∈ "0123456789".data := by decide
    exact hdig d hlt

/-- `intStr` renders with a sign and decimal digit characters only. -/
theorem intStr_mem (z : ℤ) : ∀ c ∈ intStr z, c ∈ "-0123456789".data := by
  intro c hc
  unfold intStr at hc
  have hsub : ∀ x ∈ "0123456789".data, x ∈ "-0123456789".data := by decide
  by_cases h : z < 0
  · rw [if_pos h] at hc
    rcases List.mem_cons.mp hc with rfl | hc
    · decide
    · exact hsub c (natStr_mem _ c hc)
  · rw [if_neg h] at hc
    exact hsub c (natStr_mem _ c hc)

/-- Patterns starting outside the sign-and-digits alphabet never occur in a
rendered integer. -/
theorem countSub_intStr_zero (c₀ : Char) (p' : List Char) (n : ℤ)
    (h : c₀ ∉ "-0123456789".data) :
    countSub (c₀ :: p') (intStr n) = 0 :=
  countSub_head_not_mem c₀ p' _ (fun hmem => h (intStr_mem n c₀ hmem))

/-- Substring count of one federated `SELECT` branch followed by more text:
user fragments contribute nothing, so the count is the sum over the concrete
segments and the rest. -/
theorem countSub_branch (p : List Char) (hp : p ≠ [])
    (sc mid tail cols whereC rest : List Char)
    (hcols : countSub p cols = 0) (hwhere : countSub p whereC = 0)
    (l0 : lsc p "SELECT ".data) (lsc1 : lsc p sc) (rmid : rsc p mid)
    (lmid : lsc p mid) (rtail : rsc p tail) (ltail : lsc p tail) :
    countSub p ("SELECT ".data ++ (sc ++ (cols ++ (mid ++ (whereC ++ (tail ++ rest)))))) =
      countSub p "SELECT ".data + countSub p sc + countSub p mid + countSub p tail +
        countSub p rest := by
  rw [countSub_append_lsc p hp _ _ l0, countSub_append_lsc p hp _ _ lsc1,
    countSub_append_rsc p hp cols mid _ rmid, countSub_append_lsc p hp _ _ lmid,
    countSub_append_rsc p hp whereC tail rest rtail,
    countSub_append_lsc p hp _ _ ltail, hcols, hwhere]
  ring

/-- Substring count of a final federated `SELECT` branch. -/
theorem countSub_branch_last (p : List Char) (hp : p ≠ [])
    (sc mid tail cols whereC : List Char)
    (hcols : countSub p cols = 0) (hwhere : countSub p whereC = 0)
    (l0 : lsc p "SELECT ".data) (lsc1 : lsc p sc) (rmid : rsc p mid)
    (lmid : lsc p mid) (rtail : rsc p tail) :
    countSub p ("SELECT ".data ++ (sc ++ (cols ++ (mid ++ (whereC ++ tail))))) =
      countSub p "SELECT ".data + countSub p sc + countSub p mid + countSub p tail := by
  rw [countSub_append_lsc p hp _ _ l0, countSub_append_lsc p hp _ _ lsc1,
    countSub_append_rsc p hp cols mid _ rmid, countSub_append_lsc p hp _ _ lmid,
    countSub_append_rsc_last p hp whereC tail rtail, hcols, hwhere]
  ring

/-- The `ORDER BY` wrapper adds no occurrences of a pattern absent from the
wrapper text and the order-by fragment. -/
theorem countSub_orderwrap (p : List Char) (hp : p ≠ []) (body orderBy : List Char)
    (horder : countSub p orderBy = 0)
    (hw1c : countSub p "SELECT * FROM (".data = 0)
    (hw2c : countSub p ") ORDER BY ".data = 0)
    (lw1 : lsc p "SELECT * FROM (".data)
    (rw2 : rsc p ") ORDER BY ".data) (lw2 : lsc p ") ORDER BY ".data) :
    countSub p ("SELECT * FROM (".data ++ body ++ ") ORDER BY ".data ++ orderBy) =
      countSub p body := by
  rw [countSub_append_lsc_ctx p hp ("SELECT * FROM (".data ++ body) ") ORDER BY ".data
      orderBy lw2,
    countSub_append_rsc_last p hp ("SELECT * FROM (".data ++ body) _ rw2,
    countSub_append_lsc p hp _ _ lw1, hw1c, hw2c, horder]
  ring

/-- The `LIMIT` suffix adds no occurrences of a pattern absent from the
keyword and the rendered number. -/
theorem countSub_limitwrap (p : List Char) (hp : p ≠ []) (w : List Char) (n : ℤ)
    (hdig : countSub p (intStr n) = 0)
    (hlc : countSub p " LIMIT ".data = 0)
    (rl : rsc p " LIMIT ".data) (ll : lsc p " LIMIT ".data) :
    countSub p (w ++ " LIMIT ".data ++ intStr n) = countSub p w := by
  rw [countSub_append_lsc_ctx p hp w " LIMIT ".data (intStr n) ll,
    countSub_append_rsc_last p hp w _ rl, hlc, hdig]
  ring

/-- Substring presence is preserved by prepending text. -/
theorem containsSub_append_right (p a b : List Char) (h : containsSub p b = true) :
    containsSub p (a ++ b) = true := by
  induction a with
  | nil => simpa using h
  | cons c a' ih => simp [containsSub, ih]

/-- Substring presence is preserved by appending text. -/
theorem containsSub_append_left (p a b : List Char) (h : containsSub p a = true) :
    containsSub p (a ++ b) = true := by
  induction a with
  | nil =>
    have hp : p = [] := by simpa [containsSub, List.isEmpty_iff] using h
    subst hp
    cases b with
    | nil => rfl
    | cons d bs => simp [containsSub]
  | cons c a' ih =>
    simp only [containsSub] at h
    rcases (Bool.or_eq_true _ _).mp h with h1 | h1
    · have h2 : p.isPrefixOf (c :: (a' ++ b)) = true := by
        rw [List.isPrefixOf_iff_prefix]
        have h3 := (List.isPrefixOf_iff_prefix.mp h1).trans (List.prefix_append (c :: a') b)
        rwa [List.cons_append] at h3
      simp [containsSub, h2]
    · simp [containsSub, ih h1]

/-- The `ORDER BY` / `LIMIT` finalization of `build_union_sql` preserves the
substring count of the body for patterns absent from the added text. -/
theorem countSub_final (p : List Char) (hp : p ≠ []) (body orderBy : List Char)
    (limit : Option ℤ)
    (horder : countSub p orderBy = 0)
    (hdig : ∀ n : ℤ, countSub p (intStr n) = 0)
    (hw1c : countSub p "SELECT * FROM (".data = 0)
    (hw2c : countSub p ") ORDER BY ".data = 0)
    (hlc : countSub p " LIMIT ".data = 0)
    (lw1 : lsc p "SELECT * FROM (".data)
    (rw2 : rsc p ") ORDER BY ".data) (lw2 : lsc p ") ORDER BY ".data)
    (rl : rsc p " LIMIT ".data) (ll : lsc p " LIMIT ".data) :
    countSub p
      (match limit with
       | none =>
         if orderBy.isEmpty then body
         else "SELECT * FROM (".data ++ body ++ ") ORDER BY ".data ++ orderBy
       | some n =>
         (if orderBy.isEmpty then body
          else "SELECT * FROM (".data ++ body ++ ") ORDER BY ".data ++ orderBy) ++
           " LIMIT ".data ++ intStr n) = countSub p body := by
  cases limit with
  | none =>
    by_cases ho : orderBy.isEmpty
    · rw [if_pos ho]
    · rw [if_neg ho]
      exact countSub_orderwrap p hp body orderBy horder hw1c hw2c lw1 rw2 lw2
  | some n =>
    by_cases ho : orderBy.isEmpty
    · rw [if_pos ho, countSub_limitwrap p hp body n (hdig n) hlc rl ll]
    · rw [if_neg ho, countSub_limitwrap p hp _ n (hdig n) hlc rl ll,
        countSub_orderwrap p hp body orderBy horder hw1c hw2c lw1 rw2 lw2]

/-- Reduction of `build_union_sql` at literal target flags (both targets). -/
theorem build_union_sql_both_eq (cols whereC orderBy : List Char) (limit : Option ℤ) :
    (build_union_sql cols whereC ⟨true, true⟩ orderBy limit true true).1 =
      (match limit with
       | none =>
         if orderBy.isEmpty then
           ("SELECT ".data ++ "'archive' AS source, ".data ++ cols ++
             " FROM archive.production_records WHERE ".data ++ whereC ++
             " AND production_date < ?".data) ++ " UNION ALL ".data ++
           ("SELECT ".data ++ "'live' AS source, ".data ++ cols ++
             " FROM production_records WHERE ".data ++ whereC ++
             " AND production_date >= ?".data)
         else "SELECT * FROM (".data ++
           (("SELECT ".data ++ "'archive' AS source, ".data ++ cols ++
             " FROM archive.production_records WHERE ".data ++ whereC ++
             " AND production_date < ?".data) ++ " UNION ALL ".data ++
           ("SELECT ".data ++ "'live' AS source, ".data ++ cols ++
             " FROM production_records WHERE ".data ++ whereC ++
             " AND production_date >= ?".data)) ++ ") ORDER BY ".data ++ orderBy
       | some n =>
         (if orderBy.isEmpty then
           ("SELECT ".data ++ "'archive' AS source, ".data ++ cols ++
             " FROM archive.production_records WHERE ".data ++ whereC ++
             " AND production_date < ?".data) ++ " UNION ALL ".data ++
           ("SELECT ".data ++ "'live' AS source, ".data ++ cols ++
             " FROM production_records WHERE ".data ++ whereC ++
             " AND production_date >= ?".data)
         else "SELECT * FROM (".data ++
           (("SELECT ".data ++ "'archive' AS source, ".data ++ cols ++
             " FROM archive.production_records WHERE ".data ++ whereC ++
             " AND production_date < ?".data) ++ " UNION ALL ".data ++
           ("SELECT ".data ++ "'live' AS source, ".data ++ cols ++
             " FROM production_records WHERE ".data ++ whereC ++
             " AND production_date >= ?".data)) ++ ") ORDER BY ".data ++ orderBy) ++
           " LIMIT ".data ++ intStr n) := rfl
theorem build_union_sql_arch_eq (cols whereC orderBy : List Char) (limit : Option ℤ) :
    (build_union_sql cols whereC ⟨true, false⟩ orderBy limit true true).1 =
      (match limit with
       | none =>
         if orderBy.isEmpty then
           "SELECT ".data ++ "'archive' AS source, ".data ++ cols ++
             " FROM archive.production_records WHERE ".data ++ whereC ++
             " AND production_date < ?".data
         else "SELECT * FROM (".data ++
           ("SELECT ".data ++ "'archive' AS source, ".data ++ cols ++
             " FROM archive.production_records WHERE ".data ++ whereC ++
             " AND production_date < ?".data) ++ ") ORDER BY ".data ++ orderBy
       | some n =>
         (if orderBy.isEmpty then
           "SELECT ".data ++ "'archive' AS source, ".data ++ cols ++
             " FROM archive.production_records WHERE ".data ++ whereC ++
             " AND production_date < ?".data
         else "SELECT * FROM (".data ++
           ("SELECT ".data ++ "'archive' AS source, ".data ++ cols ++
             " FROM archive.production_records WHERE ".data ++ whereC ++
             " AND production_date < ?".data) ++ ") ORDER BY ".data ++ orderBy) ++
           " LIMIT ".data ++ intStr n) := rfl
theorem build_union_sql_live_eq (cols whereC orderBy : List Char) (limit : Option ℤ) :
    (build_union_sql cols whereC ⟨false, true⟩ orderBy limit true true).1 =
      (match limit with
       | none =>
         if orderBy.isEmpty then
           "SELECT ".data ++ "'live' AS source, ".data ++ cols ++
             " FROM production_records WHERE ".data ++ whereC ++
             " AND production_date >= ?".data
         else "SELECT * FROM (".data ++
           ("SELECT ".data ++ "'live' AS source, ".data ++ cols ++
             " FROM production_records WHERE ".data ++ whereC ++
             " AND production_date >= ?".data) ++ ") ORDER BY ".data ++ orderBy
       | some n =>
         (if orderBy.isEmpty then
           "SELECT ".data ++ "'live' AS source, ".data ++ cols ++
             " FROM production_records WHERE ".data ++ whereC ++
             " AND production_date >= ?".data
         else "SELECT * FROM (".data ++
           ("SELECT ".data ++ "'live' AS source, ".data ++ cols ++
             " FROM production_records WHERE ".data ++ whereC ++
             " AND production_date >= ?".data) ++ ") ORDER BY ".data ++ orderBy) ++
           " LIMIT ".data ++ intStr n) := rfl
theorem build_union_sql_none_eq (cols whereC orderBy : List Char) (limit : Option ℤ) :
    (build_union_sql cols whereC ⟨false, false⟩ orderBy limit true true).1 =
      (match limit with
       | none =>
         if orderBy.isEmpty then
           "SELECT ".data ++ "'live' AS source, ".data ++ cols ++
             " FROM production_records WHERE 1=0".data
         else "SELECT * FROM (".data ++
           ("SELECT ".data ++ "'live' AS source, ".data ++ cols ++
             " FROM production_records WHERE 1=0".data) ++ ") ORDER BY ".data ++ orderBy
       | some n =>
         (if orderBy.isEmpty then
           "SELECT ".data ++ "'live' AS source, ".data ++ cols ++
             " FROM production_records WHERE 1=0".data
         else "SELECT * FROM (".data ++
           ("SELECT ".data ++ "'live' AS source, ".data ++ cols ++
             " FROM production_records WHERE 1=0".data) ++ ") ORDER BY ".data ++ orderBy) ++
           " LIMIT ".data ++ intStr n) := rfl

/-- C7. For `build_union_sql` with valid inputs (user fragments that do not
themselves contain a `UNION ALL` or a source literal), the SQL built with
both targets selected (and the archive file present) contains exactly one
`UNION ALL` and exactly one `'archive' AS source` / `'live' AS source`
literal (one per branch); with a single target it contains zero `UNION ALL`;
with neither target it is the defensive zero-row query (it contains
`WHERE 1=0`) rather than an error. -/
theorem build_union_sql_counts (cols whereC orderBy : List Char) (limit : Option ℤ)
    (hcU : countSub "UNION ALL".data cols = 0)
    (hwU : countSub "UNION ALL".data whereC = 0)
    (hoU : countSub "UNION ALL".data orderBy = 0)
    (hcA : countSub "'archive' AS source".data cols = 0)
    (hwA : countSub "'archive' AS source".data whereC = 0)
    (hoA : countSub "'archive' AS source".data orderBy = 0)
    (hcL : countSub "'live' AS source".data cols = 0)
    (hwL : countSub "'live' AS source".data whereC = 0)
    (hoL : countSub "'live' AS source".data orderBy = 0) :
    countSub "UNION ALL".data
      (build_union_sql cols whereC ⟨true, true⟩ orderBy limit true true).1 = 1
    ∧ countSub "'archive' AS source".data
      (build_union_sql cols whereC ⟨true, true⟩ orderBy limit true true).1 = 1
    ∧ countSub "'live' AS source".data
      (build_union_sql cols whereC ⟨true, true⟩ orderBy limit true true).1 = 1
    ∧ countSub "UNION ALL".data
      (build_union_sql cols whereC ⟨true, false⟩ orderBy limit true true).1 = 0
    ∧ countSub "UNION ALL".data
      (build_union_sql cols whereC ⟨false, true⟩ orderBy limit true true).1 = 0
    ∧ containsSub "WHERE 1=0".data
      (build_union_sql cols whereC ⟨false, false⟩ orderBy limit true true).1 = true := by

  refine ⟨?_, ?_, ?_, ?_, ?_, ?_⟩
  · rw [build_union_sql_both_eq cols whereC orderBy limit,
      countSub_final "UNION ALL".data (by decide) _ orderBy limit hoU
        (fun n => countSub_intStr_zero 'U' "NION ALL".data n (by decide))
        (by decide) (by decide) (by decide) (by decide) (by decide) (by decide) (by decide)
        (by decide)]
    simp only [List.append_assoc]
    rw [countSub_branch "UNION ALL".data (by decide) _ _ _ cols whereC _ hcU hwU
        (by decide) (by decide) (by decide) (by decide) (by decide) (by decide),
      countSub_append_lsc "UNION ALL".data (by decide) _ _ (by decide),
      countSub_branch_last "UNION ALL".data (by decide) _ _ _ cols whereC hcU hwU
        (by decide) (by decide) (by decide) (by decide) (by decide)]
    decide
  · rw [build_union_sql_both_eq cols whereC orderBy limit,
      countSub_final "'archive' AS source".data (by decide) _ orderBy limit hoA
        (fun n => countSub_intStr_zero '\'' "archive' AS source".data n (by decide))
        (by decide) (by decide) (by decide) (by decide) (by decide) (by decide) (by decide)
        (by decide)]
    simp only [List.append_assoc]
    rw [countSub_branch "'archive' AS source".data (by decide) _ _ _ cols whereC _ hcA hwA
        (by decide) (by decide) (by decide) (by decide) (by decide) (by decide),
      countSub_append_lsc "'archive' AS source".data (by decide) _ _ (by decide),
      countSub_branch_last "'archive' AS source".data (by decide) _ _ _ cols whereC hcA hwA
        (by decide) (by decide) (by decide) (by decide) (by decide)]
    decide
  · rw [build_union_sql_both_eq cols whereC orderBy limit,
      countSub_final "'live' AS source".data (by decide) _ orderBy limit hoL
        (fun n => countSub_intStr_zero '\'' "live' AS source".data n (by decide))
        (by decide) (by decide) (by decide) (by decide) (by decide) (by decide) (by decide)
        (by decide)]
    simp only [List.append_assoc]
    rw [countSub_branch "'live' AS source".data (by decide) _ _ _ cols whereC _ hcL hwL
        (by decide) (by decide) (by decide) (by decide) (by decide) (by decide),
      countSub_append_lsc "'live' AS source".data (by decide) _ _ (by decide),
      countSub_branch_last "'live' AS source".data (by decide) _ _ _ cols whereC hcL hwL
        (by decide) (by decide) (by decide) (by decide) (by decide)]
    decide
  · rw [build_union_sql_arch_eq cols whereC orderBy limit,
      countSub_final "UNION ALL".data (by decide) _ orderBy limit hoU
        (fun n => countSub_intStr_zero 'U' "NION ALL".data n (by decide))
        (by decide) (by decide) (by decide) (by decide) (by decide) (by decide) (by decide)
        (by decide)]
    simp only [List.append_assoc]
    rw [countSub_branch_last "UNION ALL".data (by decide) _ _ _ cols whereC hcU hwU
        (by decide) (by decide) (by decide) (by decide) (by decide)]
    decide
  · rw [build_union_sql_live_eq cols whereC orderBy limit,
      countSub_final "UNION ALL".data (by decide) _ orderBy limit hoU
        (fun n => countSub_intStr_zero 'U' "NION ALL".data n (by decide))
        (by decide) (by decide) (by decide) (by decide) (by decide) (by decide) (by decide)
        (by decide)]
    simp only [List.append_assoc]
    rw [countSub_branch_last "UNION ALL".data (by decide) _ _ _ cols whereC hcU hwU
        (by decide) (by decide) (by decide) (by decide) (by decide)]
    decide
  · rw [build_union_sql_none_eq cols whereC orderBy limit]
    have hbody : containsSub "WHERE 1=0".data
        ("SELECT ".data ++ "'live' AS source, ".data ++ cols ++
          " FROM production_records WHERE 1=0".data) = true := by
      apply containsSub_append_right
      decide
    cases limit with
    | none =>
      by_cases ho : orderBy.isEmpty
      · rw [if_pos ho]; exact hbody
      · rw [if_neg ho]
        exact containsSub_append_left _ _ _
          (containsSub_append_left _ _ _ (containsSub_append_right _ _ _ hbody))
    | some n =>
      by_cases ho : orderBy.isEmpty
      · rw [if_pos ho]
        exact containsSub_append_left _ _ _ (containsSub_append_left _ _ _ hbody)
      · rw [if_neg ho]
        exact containsSub_append_left _ _ _ (containsSub_append_left _ _ _
          (containsSub_append_left _ _ _
            (containsSub_append_left _ _ _ (containsSub_append_right _ _ _ hbody))))

/-- C7 witness: typical fragments satisfy the validity hypotheses, and the
both-targets SQL contains exactly one `UNION ALL`. -/
theorem build_union_sql_counts_witness :
    countSub "UNION ALL".data "id, item_code".data = 0
    ∧ countSub "'archive' AS source".data "item_code = ?".data = 0
    ∧ countSub "UNION ALL".data
        (build_union_sql "id, item_code".data "item_code = ?".data ⟨true, true⟩
          "production_date DESC, source DESC, id DESC".data (some 100) true true).1 = 1 :=
  ⟨by decide, by decide,
    (build_union_sql_counts "id, item_code".data "item_code = ?".data
      "production_date DESC, source DESC, id DESC".data (some 100)
      (by decide) (by decide) (by decide) (by decide) (by decide) (by decide)
      (by decide) (by decide) (by decide)).1⟩

/-- C8 witness: a capless accepted query gets ` LIMIT 1000` appended. -/
theorem sandbox_limit_cap_witness :
    execute_custom_query_validate "SELECT * FROM production_records".data
      = .ok "SELECT * FROM production_records LIMIT 1000".data
    ∧ "SELECT * FROM production_records LIMIT 1000".data
      = cleanOf "SELECT * FROM production_records".data ++ " LIMIT 1000".data :=
  ⟨by decide,
    (sandbox_limit_cap "SELECT * FROM production_records".data
      "SELECT * FROM production_records LIMIT 1000".data (by decide)).2.2.2.2.1 (by decide)⟩

/-! ### Result cache theorems -/

/-- Evaluating the digit list back as a number recovers the input. -/
theorem natDigitsF_foldr (fuel : ℕ) : ∀ n ≤ fuel,
    (natDigitsF fuel n).foldr (fun d acc => d + 10 * acc) 0 = n := by
  induction fuel with
  | zero =>
    intro n hn
    interval_cases n
    rfl
  | succ fuel ih =>
    intro n hn
    by_cases h : n = 0
    · subst h; simp [natDigitsF]
    · have hdiv : n / 10 ≤ fuel := by
        have : n / 10 < n := Nat.div_lt_self (by omega) (by omega)
        omega
      simp only [natDigitsF, if_neg h, List.foldr_cons, ih (n / 10) hdiv]
      omega

/-- The digit-list rendering of naturals is injective. -/
theorem natDigits_inj {m n : ℕ} (h : natDigits m = natDigits n) : m = n := by
  have hm := natDigitsF_foldr m m le_rfl
  have hn := natDigitsF_foldr n n le_rfl
  unfold natDigits at h
  rw [← hm, ← hn, h]

/-- Mapping `Nat.digitChar` over digit lists below ten is injective. -/
theorem map_digitChar_inj : ∀ (ds es : List ℕ), (∀ d ∈ ds, d < 10) →
    (∀ e ∈ es, e < 10) → ds.map Nat.digitChar = es.map Nat.digitChar → ds = es := by
  intro ds
  induction ds with
  | nil => intro es _ _ h; cases es with | nil => rfl | cons e es => cases h
  | cons d ds ih =>
    intro es hds hes h
    cases es with
    | nil => cases h
    | cons e es =>
      simp only [List.map_cons, List.cons.injEq] at h
      have hd10 : d < 10 := hds d (List.mem_cons_self _ _)
      have he10 : e < 10 := hes e (List.mem_cons_self _ _)
      have hinj : ∀ a < 10, ∀ b < 10, Nat.digitChar a = Nat.digitChar b → a = b := by decide
      have hde : d = e := hinj d hd10 e he10 h.1
      have htl : ds = es :=
        ih es (fun x hx => hds x (List.mem_cons_of_mem _ hx))
          (fun x hx => hes x (List.mem_cons_of_mem _ hx)) h.2
      rw [hde, htl]

/-- `natStr` is injective. -/
theorem natStr_inj {m n : ℕ} (h : natStr m = natStr n) : m = n := by
  unfold natStr at h
  by_cases hm : m = 0 <;> by_cases hn : n = 0
  · omega
  · exfalso
    rw [if_pos hm, if_neg hn] at h
    have hdig : natDigits n = [0] := by
      have hmap : (natDigits n).map Nat.digitChar = ['0'] := by
        have := congrArg List.reverse h
        simpa using this.symm
      have h10 : ∀ d ∈ natDigits n, d < 10 := natDigitsF_lt n n
      exact map_digitChar_inj (natDigits n) [0] h10 (by decide) (by simpa using hmap)
    have hfold := natDigitsF_foldr n n le_rfl
    unfold natDigits at hdig
    rw [hdig] at hfold
    simp at hfold
    exact hn hfold.symm
  · exfalso
    rw [if_neg hm, if_pos hn] at h
    have hdig : natDigits m = [0] := by
      have hmap : (natDigits m).map Nat.digitChar = ['0'] := by
        have := congrArg List.reverse h
        simpa using this
      have h10 : ∀ d ∈ natDigits m, d < 10 := natDigitsF_lt m m
      exact map_digitChar_inj (natDigits m) [0] h10 (by decide) (by simpa using hmap)
    have hfold := natDigitsF_foldr m m le_rfl
    unfold natDigits at hdig
    rw [hdig] at hfold
    simp at hfold
    exact hm hfold.symm
  · rw [if_neg hm, if_neg hn] at h
    have hmap : (natDigits m).map Nat.digitChar = (natDigits n).map Nat.digitChar := by
      have := congrArg List.reverse h
      simpa using this
    exact natDigits_inj
      (map_digitChar_inj _ _ (natDigitsF_lt m m) (natDigitsF_lt n n) hmap)

/-- `natStr` never starts with (or contains) a minus sign. -/
theorem minus_not_mem_natStr (n : ℕ) : '-' ∉ natStr n :=
  fun hmem => absurd (natStr_mem n '-' hmem) (by decide)

/-- `intStr` is injective. -/
theorem intStr_inj {z1 z2 : ℤ} (h : intStr z1 = intStr z2) : z1 = z2 := by
  unfold intStr at h
  by_cases h1 : z1 < 0 <;> by_cases h2 : z2 < 0
  · rw [if_pos h1, if_pos h2] at h
    simp only [List.cons.injEq, true_and] at h
    have := natStr_inj h
    omega
  · exfalso
    rw [if_pos h1, if_neg h2] at h
    exact minus_not_mem_natStr z2.natAbs (h ▸ List.mem_cons_self '-' _)
  · exfalso
    rw [if_neg h1, if_pos h2] at h
    exact minus_not_mem_natStr z1.natAbs (h.symm ▸ List.mem_cons_self '-' _)
  · rw [if_neg h1, if_neg h2] at h
    have := natStr_inj h
    omega

/-- `intStr` never contains an underscore. -/
theorem underscore_not_mem_intStr (z : ℤ) : '_' ∉ intStr z :=
  fun hmem => absurd (intStr_mem z '_' hmem) (by decide)

/-- Splitting at the first underscore is unambiguous when neither left part
contains one. -/
theorem underscore_split_inj : ∀ (a1 a2 b1 b2 : List Char), '_' ∉ a1 → '_' ∉ a2 →
    a1 ++ '_' :: b1 = a2 ++ '_' :: b2 → a1 = a2 ∧ b1 = b2 := by
  intro a1
  induction a1 with
  | nil =>
    intro a2 b1 b2 _ h2 he
    cases a2 with
    | nil => simpa using he
    | cons c a2' =>
      exfalso
      simp only [List.nil_append, List.cons_append, List.cons.injEq] at he
      exact h2 (he.1 ▸ List.mem_cons_self _ _)
  | cons c a1' ih =>
    intro a2 b1 b2 h1 h2 he
    cases a2 with
    | nil =>
      exfalso
      simp only [List.cons_append, List.nil_append, List.cons.injEq] at he
      exact h1 (he.1 ▸ List.mem_cons_self _ _)
    | cons d a2' =>
      simp only [List.cons_append, List.cons.injEq] at he
      obtain ⟨h3, h4⟩ := ih a2' b1 b2 (fun hx => h1 (List.mem_cons_of_mem _ hx))
        (fun hx => h2 (List.mem_cons_of_mem _ hx)) he.2
      exact ⟨by rw [he.1, h3], h4⟩

/-- Distinct rounded mtime pairs give distinct version strings. -/
theorem combined_version_inj {l1 a1 l2 a2 : ℚ}
    (h : combined_version l1 a1 = combined_version l2 a2) :
    pyRoundHalfEven l1 = pyRoundHalfEven l2 ∧ pyRoundHalfEven a1 = pyRoundHalfEven a2 := by
  unfold combined_version at h
  rw [List.append_assoc, List.append_assoc] at h
  have hu : ∀ x : List Char, "_".data ++ x = '_' :: x := fun _ => rfl
  rw [hu, hu] at h
  obtain ⟨hl, ha⟩ := underscore_split_inj _ _ _ _
    (underscore_not_mem_intStr _) (underscore_not_mem_intStr _) h
  exact ⟨intStr_inj hl, intStr_inj ha⟩

/-- The cache key determines the version string (same prefix and args). -/
theorem make_cache_key_ver_inj {pre args v1 v2 : List Char}
    (h : make_cache_key pre v1 args = make_cache_key pre v2 args) : v1 = v2 := by
  unfold make_cache_key at h
  have h1 := List.append_cancel_right h
  have h2 := List.append_cancel_right h1
  exact List.append_cancel_left h2

/-- A cold call computes and stores; a second call with the same key within
the TTL hits and returns the stored value without computing. -/
theorem cache_cold_then_hit {α : Type} (ttl now1 now2 : ℚ) (pre ver args : List Char)
    (c1 c2 : α) (st : List (CacheEntry α))
    (hcold : cache_lookup now1 (make_cache_key pre ver args) st = none)
    (hlt : now2 < now1 + ttl) :
    api_cache_call ttl now1 pre ver args c1 st
      = (c1, ⟨make_cache_key pre ver args, c1, now1 + ttl⟩ :: st, true)
    ∧ api_cache_call ttl now2 pre ver args c2
        (⟨make_cache_key pre ver args, c1, now1 + ttl⟩ :: st)
      = (c1, ⟨make_cache_key pre ver args, c1, now1 + ttl⟩ :: st, false) := by
  constructor
  · simp only [api_cache_call, hcold]
  · simp only [api_cache_call, cache_lookup]
    rw [if_pos ⟨trivial, hlt⟩]

/-- Evaluation rules for `get_db_version`: an empty memo recomputes, a
lapsed memo (one second or more since the last computation) recomputes,
and a live memo returns the stored string unchanged. -/
theorem get_db_version_fresh (ts t l a : ℚ) :
    get_db_version ⟨none, ts⟩ t l a =
      (combined_version l a, ⟨some (combined_version l a), t⟩) := rfl

/-- Recomputation after the memo window has lapsed. -/
theorem get_db_version_lapsed (v : List Char) (ts t l a : ℚ) (h : 1 ≤ t - ts) :
    get_db_version ⟨some v, ts⟩ t l a =
      (combined_version l a, ⟨some (combined_version l a), t⟩) := by
  show (if t - ts < 1 then ((v, ⟨some v, ts⟩) : List Char × DbVersionState)
    else (combined_version l a, ⟨some (combined_version l a), t⟩)) = _
  rw [if_neg (not_lt.mpr h)]

/-- The memoized string is served, mtimes unread, while the window is
live. -/
theorem get_db_version_memo_hit (v : List Char) (ts t l a : ℚ) (h : t - ts < 1) :
    get_db_version ⟨some v, ts⟩ t l a = (v, ⟨some v, ts⟩) := by
  show (if t - ts < 1 then ((v, ⟨some v, ts⟩) : List Char × DbVersionState)
    else (combined_version l a, ⟨some (combined_version l a), t⟩)) = _
  rw [if_pos h]

/-- The memoized wrapper, spelled out over its two stages. -/
theorem api_cache_call_memo_eq {α : Type} (ttl now : ℚ) (pre args : List Char)
    (l a : ℚ) (vst : DbVersionState) (compute : α) (st : List (CacheEntry α)) :
    api_cache_call_memo ttl now pre args l a vst compute st =
      ((api_cache_call ttl now pre (get_db_version vst now l a).1 args compute st).1,
       (api_cache_call ttl now pre (get_db_version vst now l a).1 args compute st).2.1,
       (api_cache_call ttl now pre (get_db_version vst now l a).1 args compute st).2.2,
       (get_db_version vst now l a).2) := rfl

/-- A call from an empty version memo and an empty cache computes, keys
the entry under the fresh version string, and memoizes it. -/
theorem api_cache_call_memo_fresh {α : Type} (ttl now : ℚ) (pre args : List Char)
    (l a ts : ℚ) (c : α) :
    api_cache_call_memo ttl now pre args l a ⟨none, ts⟩ c [] =
      (c, [⟨make_cache_key pre (combined_version l a) args, c, now + ttl⟩], true,
        ⟨some (combined_version l a), now⟩) := by
  rw [api_cache_call_memo_eq, get_db_version_fresh]
  simp only [api_cache_call, cache_lookup]

/-- C4. The claim says ANY change to a store file's modification time
invalidates cached entries.  The fingerprint rounds each mtime to whole
seconds (`f"{mtime:.0f}"`), so a sub-second change — here live mtime
`100.2 → 100.4` — leaves the version string unchanged even when it is
genuinely recomputed (second call one second later, so the 1-second memo
has lapsed): the cache key is unchanged and the call returns the
previously cached value without re-computing. -/
theorem cache_subsecond_mtime_change_not_invalidated :
    (1002/10 : ℚ) ≠ (1004/10 : ℚ)
    ∧ combined_version (1002/10) 0 = combined_version (1004/10) 0
    ∧ api_cache_call_memo 300 0 "items".data "q".data (1002/10) 0 ⟨none, 0⟩ (1 : ℕ) []
      = (1, [⟨make_cache_key "items".data (combined_version (1002/10) 0) "q".data, 1,
            0 + 300⟩], true, ⟨some (combined_version (1002/10) 0), 0⟩)
    ∧ api_cache_call_memo 300 1 "items".data "q".data (1004/10) 0
        ⟨some (combined_version (1002/10) 0), 0⟩ (2 : ℕ)
        [⟨make_cache_key "items".data (combined_version (1002/10) 0) "q".data, 1, 0 + 300⟩]
      = (1, [⟨make_cache_key "items".data (combined_version (1002/10) 0) "q".data, 1,
            0 + 300⟩], false, ⟨some (combined_version (1004/10) 0), 1⟩) := by
  have hr1 : pyRoundHalfEven (1002/10 : ℚ) = 100 := by
    have hf : (⌊(1002/10 : ℚ)⌋ : ℤ) = 100 := by norm_num
    unfold pyRoundHalfEven
    rw [hf, if_pos (by norm_num)]
  have hr2 : pyRoundHalfEven (1004/10 : ℚ) = 100 := by
    have hf : (⌊(1004/10 : ℚ)⌋ : ℤ) = 100 := by norm_num
    unfold pyRoundHalfEven
    rw [hf, if_pos (by norm_num)]
  have hv : combined_version (1002/10) 0 = combined_version (1004/10) 0 := by
    unfold combined_version
    rw [hr1, hr2]
  refine ⟨by norm_num, hv, api_cache_call_memo_fresh 300 0 _ _ _ _ 0 1, ?_⟩
  rw [api_cache_call_memo_eq,
    get_db_version_lapsed (combined_version (1002/10) 0) 0 1 (1004/10) 0 (by norm_num)]
  rw [← hv]
  simp only [api_cache_call, cache_lookup]
  rw [if_pos ⟨trivial, by norm_num⟩]

/-- C4 (amended): (1) starting from an empty version memo, a cold call
computes once, and a second call with identical arguments, unchanged store
mtimes and within the TTL returns the cached result without invoking
compute again — whether the second call falls inside or after the
1-second version-memo window; (2) once the memo has lapsed (the new call
one second or more after the version was last computed), a change to
either store file's ROUNDED (whole-second) mtime makes the recomputed
version, and hence the cache key, differ; (3) after such a lapsed
rounded-mtime change, the next call misses the old entry and invokes
compute again; (4) within the memo window the stale version string is
reused, so even a rounded-mtime change does not invalidate: the old entry
is still served without computing.  Sub-second mtime changes never
invalidate (see the counterexample). -/
theorem api_cache_hit_and_rounded_invalidation {α : Type} :
    (∀ (ttl now1 now2 : ℚ) (pre args : List Char) (l a : ℚ) (c1 c2 : α) (ts : ℚ),
      now2 < now1 + ttl →
      (api_cache_call_memo ttl now1 pre args l a ⟨none, ts⟩ c1 []).1 = c1
      ∧ (api_cache_call_memo ttl now1 pre args l a ⟨none, ts⟩ c1 []).2.2.1 = true
      ∧ (api_cache_call_memo ttl now2 pre args l a
          (api_cache_call_memo ttl now1 pre args l a ⟨none, ts⟩ c1 []).2.2.2 c2
          (api_cache_call_memo ttl now1 pre args l a ⟨none, ts⟩ c1 []).2.1).1 = c1
      ∧ (api_cache_call_memo ttl now2 pre args l a
          (api_cache_call_memo ttl now1 pre args l a ⟨none, ts⟩ c1 []).2.2.2 c2
          (api_cache_call_memo ttl now1 pre args l a ⟨none, ts⟩ c1 []).2.1).2.2.1 = false)
    ∧ (∀ (l1 a1 l2 a2 : ℚ) (pre args : List Char) (ts now : ℚ),
      1 ≤ now - ts →
      (pyRoundHalfEven l1 ≠ pyRoundHalfEven l2 ∨
        pyRoundHalfEven a1 ≠ pyRoundHalfEven a2) →
      make_cache_key pre
          (get_db_version ⟨some (combined_version l1 a1), ts⟩ now l2 a2).1 args ≠
        make_cache_key pre (combined_version l1 a1) args)
    ∧ (∀ (ttl now1 now2 : ℚ) (pre args : List Char) (l1 a1 l2 a2 : ℚ) (c1 c2 : α)
        (ts : ℚ),
      1 ≤ now2 - now1 →
      (pyRoundHalfEven l1 ≠ pyRoundHalfEven l2 ∨
        pyRoundHalfEven a1 ≠ pyRoundHalfEven a2) →
      (api_cache_call_memo ttl now2 pre args l2 a2
        (api_cache_call_memo ttl now1 pre args l1 a1 ⟨none, ts⟩ c1 []).2.2.2 c2
        (api_cache_call_memo ttl now1 pre args l1 a1 ⟨none, ts⟩ c1 []).2.1).2.2.1 = true)
    ∧ (∀ (ttl now1 now2 : ℚ) (pre args : List Char) (l1 a1 l2 a2 : ℚ) (c1 c2 : α)
        (ts : ℚ),
      now2 - now1 < 1 → now2 < now1 + ttl →
      (api_cache_call_memo ttl now2 pre args l2 a2
        (api_cache_call_memo ttl now1 pre args l1 a1 ⟨none, ts⟩ c1 []).2.2.2 c2
        (api_cache_call_memo ttl now1 pre args l1 a1 ⟨none, ts⟩ c1 []).2.1).1 = c1
      ∧ (api_cache_call_memo ttl now2 pre args l2 a2
        (api_cache_call_memo ttl now1 pre args l1 a1 ⟨none, ts⟩ c1 []).2.2.2 c2
        (api_cache_call_memo ttl now1 pre args l1 a1 ⟨none, ts⟩ c1 []).2.1).2.2.1
        = false) := by
  refine ⟨?_, ?_, ?_, ?_⟩
  · intro ttl now1 now2 pre args l a c1 c2 ts hlt
    have e2 : (api_cache_call_memo ttl now2 pre args l a
        ⟨some (combined_version l a), now1⟩ c2
        [⟨make_cache_key pre (combined_version l a) args, c1, now1 + ttl⟩]).1 = c1
      ∧ (api_cache_call_memo ttl now2 pre args l a
        ⟨some (combined_version l a), now1⟩ c2
        [⟨make_cache_key pre (combined_version l a) args, c1, now1 + ttl⟩]).2.2.1
        = false := by
      by_cases hm : now2 - now1 < 1
      · rw [api_cache_call_memo_eq,
          get_db_version_memo_hit (combined_version l a) now1 now2 l a hm]
        simp only [api_cache_call, cache_lookup]
        rw [if_pos ⟨trivial, hlt⟩]
        exact ⟨rfl, rfl⟩
      · rw [api_cache_call_memo_eq,
          get_db_version_lapsed (combined_version l a) now1 now2 l a (not_lt.mp hm)]
        simp only [api_cache_call, cache_lookup]
        rw [if_pos ⟨trivial, hlt⟩]
        exact ⟨rfl, rfl⟩
    rw [api_cache_call_memo_fresh ttl now1 pre args l a ts c1]
    exact ⟨rfl, rfl, e2.1, e2.2⟩
  · intro l1 a1 l2 a2 pre args ts now hlapse hne
    rw [get_db_version_lapsed (combined_version l1 a1) ts now l2 a2 hlapse]
    intro heq
    have hv := combined_version_inj (make_cache_key_ver_inj heq)
    rcases hne with h | h
    · exact h hv.1.symm
    · exact h hv.2.symm
  · intro ttl now1 now2 pre args l1 a1 l2 a2 c1 c2 ts hlapse hne
    have hkne : make_cache_key pre (combined_version l2 a2) args ≠
        make_cache_key pre (combined_version l1 a1) args := by
      intro heq
      have hv := combined_version_inj (make_cache_key_ver_inj heq)
      rcases hne with h | h
      · exact h hv.1.symm
      · exact h hv.2.symm
    rw [api_cache_call_memo_fresh ttl now1 pre args l1 a1 ts c1]
    rw [api_cache_call_memo_eq,
      get_db_version_lapsed (combined_version l1 a1) now1 now2 l2 a2 hlapse]
    simp only [api_cache_call, cache_lookup]
    rw [if_neg (fun hand => hkne hand.1.symm)]
  · intro ttl now1 now2 pre args l1 a1 l2 a2 c1 c2 ts hm hlt
    rw [api_cache_call_memo_fresh ttl now1 pre args l1 a1 ts c1]
    rw [api_cache_call_memo_eq,
      get_db_version_memo_hit (combined_version l1 a1) now1 now2 l2 a2 hm]
    simp only [api_cache_call, cache_lookup]
    rw [if_pos ⟨trivial, hlt⟩]
    exact ⟨rfl, rfl⟩

/-! ### Pagination cursor theorems

The round-trip `decode (encode cursor) = cursor` decomposes into: base64
round-trips on byte lists, ASCII text survives encode/decode, and the JSON
parser inverts the serializer. -/

/-- Alphabet lookup inverts the alphabet rendering. -/
theorem b64Val_b64Char : ∀ n < 64, b64Val (b64Char n) = some n := by decide

/-- Alphabet characters are never padding. -/
theorem b64Char_ne_pad : ∀ n < 64, b64Char n ≠ '=' := by decide

/-- Every character emitted by the encoder survives the decoder's filter. -/
theorem b64encode_filter : ∀ (bs : List ℕ),
    (b64encode bs).filter (fun c => (b64Val c).isSome || c = '=') = b64encode bs := by
  have hsmall : ∀ m < 64, ((b64Val (b64Char m)).isSome || (b64Char m = '=' : Bool)) = true := by
    decide
  have hkeep : ∀ n : ℕ, ((b64Val (b64Char n)).isSome || (b64Char n = '=' : Bool)) = true := by
    intro n
    by_cases h : n < 64
    · exact hsmall n h
    · have hd : b64Char n = '=' := by
        unfold b64Char
        exact List.getD_eq_default _ _ (by change 64 ≤ n; omega)
      simp [hd]
  have hpad : ((b64Val '=').isSome || ('=' = '=' : Bool)) = true := by decide
  intro bs
  induction bs using b64encode.induct with
  | case1 => rfl
  | case2 b1 =>
    rw [List.filter_eq_self]
    intro a ha
    simp only [b64encode, List.mem_cons, List.not_mem_nil, or_false] at ha
    rcases ha with rfl | rfl | rfl | rfl
    · exact hkeep _
    · exact hkeep _
    · exact hpad
    · exact hpad
  | case3 b1 b2 =>
    rw [List.filter_eq_self]
    intro a ha
    simp only [b64encode, List.mem_cons, List.not_mem_nil, or_false] at ha
    rcases ha with rfl | rfl | rfl | rfl
    · exact hkeep _
    · exact hkeep _
    · exact hkeep _
    · exact hpad
  | case4 b1 b2 b3 rest ih =>
    show List.filter _ (_ :: _ :: _ :: _ :: b64encode rest) = _
    simp only [List.filter_cons]
    rw [ih]
    rw [if_pos (hkeep _), if_pos (hkeep _), if_pos (hkeep _), if_pos (hkeep _)]
    rfl

/-- Group decoding inverts the encoder on byte lists. -/
theorem b64DecodeGroups_encode : ∀ (bs : List ℕ), (∀ b ∈ bs, b < 256) →
    b64DecodeGroups (b64encode bs) = some bs := by
  intro bs
  induction bs using b64encode.induct with
  | case1 => intro _; rfl
  | case2 b1 =>
    intro h
    have hb1 : b1 < 256 := h b1 (by simp)
    have h1 : b64Val (b64Char (b1 / 4)) = some (b1 / 4) := b64Val_b64Char _ (by omega)
    have h2 : b64Val (b64Char (b1 % 4 * 16)) = some (b1 % 4 * 16) :=
      b64Val_b64Char _ (by omega)
    show b64DecodeGroups [b64Char (b1 / 4), b64Char (b1 % 4 * 16), '=', '='] = _
    simp [b64DecodeGroups, h1, h2]
    omega
  | case3 b1 b2 =>
    intro h
    have hb1 : b1 < 256 := h b1 (by simp)
    have hb2 : b2 < 256 := h b2 (by simp)
    have h1 : b64Val (b64Char (b1 / 4)) = some (b1 / 4) := b64Val_b64Char _ (by omega)
    have h2 : b64Val (b64Char (b1 % 4 * 16 + b2 / 16)) = some (b1 % 4 * 16 + b2 / 16) :=
      b64Val_b64Char _ (by omega)
    have h3 : b64Val (b64Char (b2 % 16 * 4)) = some (b2 % 16 * 4) :=
      b64Val_b64Char _ (by omega)
    have hne : ¬ (b64Char (b2 % 16 * 4) = '=') := b64Char_ne_pad _ (by omega)
    show b64DecodeGroups
      [b64Char (b1 / 4), b64Char (b1 % 4 * 16 + b2 / 16), b64Char (b2 % 16 * 4), '='] = _
    simp [b64DecodeGroups, h1, h2, h3, hne]
    omega
  | case4 b1 b2 b3 rest ih =>
    intro h
    have hb1 : b1 < 256 := h b1 (by simp)
    have hb2 : b2 < 256 := h b2 (by simp)
    have hb3 : b3 < 256 := h b3 (by simp)
    have hrest : ∀ b ∈ rest, b < 256 := fun b hb =>
      h b (by simp [List.mem_cons, hb])
    have h1 : b64Val (b64Char (b1 / 4)) = some (b1 / 4) := b64Val_b64Char _ (by omega)
    have h2 : b64Val (b64Char (b1 % 4 * 16 + b2 / 16)) = some (b1 % 4 * 16 + b2 / 16) :=
      b64Val_b64Char _ (by omega)
    have h3 : b64Val (b64Char (b2 % 16 * 4 + b3 / 64)) = some (b2 % 16 * 4 + b3 / 64) :=
      b64Val_b64Char _ (by omega)
    have h4 : b64Val (b64Char (b3 % 64)) = some (b3 % 64) := b64Val_b64Char _ (by omega)
    have hne3 : ¬ (b64Char (b2 % 16 * 4 + b3 / 64) = '=') := b64Char_ne_pad _ (by omega)
    have hne4 : ¬ (b64Char (b3 % 64) = '=') := b64Char_ne_pad _ (by omega)
    show b64DecodeGroups (b64Char (b1 / 4) :: b64Char (b1 % 4 * 16 + b2 / 16) ::
      b64Char (b2 % 16 * 4 + b3 / 64) :: b64Char (b3 % 64) :: b64encode rest) = _
    simp [b64DecodeGroups, h1, h2, h3, h4, hne3, hne4, ih hrest]
    omega

/-- The full base64 round trip on byte lists. -/
theorem b64decode_encode (bs : List ℕ) (h : ∀ b ∈ bs, b < 256) :
    b64decode (b64encode bs) = some bs := by
  unfold b64decode
  rw [b64encode_filter, b64DecodeGroups_encode bs h]

/-- ASCII text survives byte encoding and decoding. -/
theorem bytesAscii_asciiBytes (l : List Char) (h : ∀ c ∈ l, c.toNat < 128) :
    bytesAscii (asciiBytes l) = some l := by
  unfold bytesAscii asciiBytes
  rw [if_pos]
  · rw [List.map_map]
    have : (Char.ofNat ∘ Char.toNat) = id := by
      funext c
      exact Char.ofNat_toNat c
    rw [this, List.map_id]
  · rw [List.all_eq_true]
    intro b hb
    rcases List.mem_map.mp hb with ⟨c, hc, rfl⟩
    exact decide_eq_true (h c hc)


/-- Hex digit characters are ASCII. -/
theorem hexChar_ascii (n : ℕ) : (hexChar n).toNat < 128 := by
  by_cases h : n < 16
  · exact (by decide : ∀ m < 16, (hexChar m).toNat < 128) n h
  · unfold hexChar
    rw [List.getD_eq_default _ _ (by change 16 ≤ n; omega)]
    decide

/-- Members of a four-digit hex rendering are ASCII. -/
theorem hex4_ascii (n : ℕ) : ∀ a ∈ hex4 n, a.toNat < 128 := by
  intro a ha
  simp only [hex4, List.mem_cons, List.not_mem_nil, or_false] at ha
  rcases ha with rfl | rfl | rfl | rfl <;> exact hexChar_ascii _

/-- JSON escaping with `ensure_ascii` yields only ASCII characters, for
every input character. -/
theorem escapeChar_ascii (c : Char) : ∀ a ∈ escapeChar c, a.toNat < 128 := by
  intro a ha
  unfold escapeChar at ha
  split_ifs at ha with h1 h2 h3 h4 h5 h6 h7 h8 h9
  · simp only [List.mem_cons, List.not_mem_nil, or_false] at ha
    rcases ha with rfl | rfl <;> decide
  · simp only [List.mem_cons, List.not_mem_nil, or_false] at ha
    rcases ha with rfl | rfl <;> decide
  · simp only [List.mem_cons, List.not_mem_nil, or_false] at ha
    rcases ha with rfl | rfl <;> decide
  · simp only [List.mem_cons, List.not_mem_nil, or_false] at ha
    rcases ha with rfl | rfl <;> decide
  · simp only [List.mem_cons, List.not_mem_nil, or_false] at ha
    rcases ha with rfl | rfl <;> decide
  · simp only [List.mem_cons, List.not_mem_nil, or_false] at ha
    rcases ha with rfl | rfl <;> decide
  · simp only [List.mem_cons, List.not_mem_nil, or_false] at ha
    rcases ha with rfl | rfl <;> decide
  · simp only [List.mem_cons] at ha
    rcases ha with rfl | rfl | h
    · decide
    · decide
    · exact hex4_ascii _ a h
  · simp only [List.mem_append, List.mem_cons] at ha
    rcases ha with (rfl | rfl | h) | (rfl | rfl | h)
    · decide
    · decide
    · exact hex4_ascii _ a h
    · decide
    · decide
    · exact hex4_ascii _ a h
  · simp only [List.mem_cons, List.not_mem_nil, or_false] at ha
    subst ha
    push_neg at h8
    omega

/-- Escaped string bodies are ASCII. -/
theorem escapeStr_ascii : ∀ (s : List Char), ∀ a ∈ escapeStr s, a.toNat < 128 := by
  intro s
  induction s with
  | nil => intro a ha; cases ha
  | cons c s ih =>
    intro a ha
    simp only [escapeStr] at ha
    rcases List.mem_append.mp ha with h | h
    · exact escapeChar_ascii c a h
    · exact ih a h

/-- The serialized cursor is pure ASCII (so UTF-8 encoding is the identity
on code points). -/
theorem cursorJson_ascii (cur : Cursor) : ∀ a ∈ cursorJson cur, a.toNat < 128 := by
  have t1 : ∀ x ∈ "\x7b\"d\": ".data, x.toNat < 128 := by decide
  have t2 : ∀ x ∈ ", \"id\": ".data, x.toNat < 128 := by decide
  have t3 : ∀ x ∈ ", \"src\": ".data, x.toNat < 128 := by decide
  have t4 : ∀ x ∈ "\x7d".data, x.toNat < 128 := by decide
  have hq : ∀ (s : List Char), ∀ x ∈ jsonStr s, x.toNat < 128 := by
    intro s x hx
    rcases List.mem_cons.mp hx with rfl | hx2
    · decide
    rcases List.mem_append.mp hx2 with h | h
    · exact escapeStr_ascii s x h
    · rcases List.mem_cons.mp h with rfl | h2
      · decide
      · cases h2
  have hi : ∀ x ∈ intStr cur.id, x.toNat < 128 := by
    intro x hx
    exact (by decide : ∀ y ∈ "-0123456789".data, y.toNat < 128) x (intStr_mem cur.id x hx)
  intro a ha
  unfold cursorJson at ha
  rcases List.mem_append.mp ha with ha2 | h
  · rcases List.mem_append.mp ha2 with ha3 | h
    · rcases List.mem_append.mp ha3 with ha4 | h
      · rcases List.mem_append.mp ha4 with ha5 | h
        · rcases List.mem_append.mp ha5 with ha6 | h
          · rcases List.mem_append.mp ha6 with h | h
            · exact t1 a h
            · exact hq _ a h
          · exact t2 a h
        · exact hi a h
      · exact t3 a h
    · exact hq _ a h
  · exact t4 a h

/-- Each escaped character occupies at least one character. -/
theorem escapeChar_length_pos (c : Char) : 1 ≤ (escapeChar c).length := by
  unfold escapeChar
  split_ifs <;> simp

/-- Escaping never shortens a string. -/
theorem escapeStr_length_ge : ∀ (s : List Char), s.length ≤ (escapeStr s).length := by
  intro s
  induction s with
  | nil => simp [escapeStr]
  | cons c s ih =>
    simp only [escapeStr, List.length_cons, List.length_append]
    have := escapeChar_length_pos c
    omega

/-- Unicode scalar values avoid the surrogate range and stay below
`0x110000`. -/
theorem char_toNat_valid (c : Char) :
    c.toNat < 55296 ∨ (57344 ≤ c.toNat ∧ c.toNat < 1114112) := by
  have h := c.valid
  unfold UInt32.isValidChar Nat.isValidChar at h
  rcases h with h | h
  · left
    exact h
  · right
    exact h

/-- Hex parsing inverts hex rendering on digit values. -/
theorem hexVal_hexChar : ∀ d < 16, hexVal (hexChar d) = some d := by decide

/-- Four-digit hex parsing inverts the rendering below `0x10000`. -/
theorem hex4Val_hex4 (n : ℕ) (h : n < 65536) :
    hex4Val (hexChar (n / 4096 % 16)) (hexChar (n / 256 % 16))
      (hexChar (n / 16 % 16)) (hexChar (n % 16)) = some n := by
  unfold hex4Val
  rw [hexVal_hexChar _ (by omega), hexVal_hexChar _ (by omega),
    hexVal_hexChar _ (by omega), hexVal_hexChar _ (by omega)]
  exact congrArg some (by omega)

/-- One parser step over a plain (unescaped) character. -/
theorem parseStrBody_raw (f : ℕ) (c : Char) (rest : List Char)
    (h1 : c ≠ '"') (h2 : c ≠ '\\') :
    parseStrBody (f + 1) (c :: rest) =
      if c.toNat < 32 then none
      else (parseStrBody f rest).map (fun p => (c :: p.1, p.2)) := by
  rw [parseStrBody.eq_def]
  split
  · omega
  · rename_i heq; cases heq
  · rename_i heq
    injection heq with hc _
    exact absurd hc h1
  · rename_i heq
    injection heq with hc _
    exact absurd hc h2
  · rename_i heq
    injection heq with hc _
    exact absurd hc h2
  · rename_i heq hl
    injection hl with hc hrest
    subst hc
    subst hrest
    rename_i fuel _ _ _
    have hf : fuel = f := by omega
    subst hf
    rfl

/-- One parser step over a BMP `\uXXXX` escape outside the surrogate
range. -/
theorem parseStrBody_u (f : ℕ) (a1 a2 a3 a4 : Char) (rest : List Char) (t : ℕ)
    (hv : hex4Val a1 a2 a3 a4 = some t) (hns : t < 55296 ∨ 57344 ≤ t) :
    parseStrBody (f + 1) ('\\' :: 'u' :: a1 :: a2 :: a3 :: a4 :: rest) =
      (parseStrBody f rest).map (fun p => (Char.ofNat t :: p.1, p.2)) := by
  simp only [parseStrBody, hv]
  rw [if_neg (by omega), if_neg (by omega)]

/-- One parser step over a surrogate-pair escape. -/
theorem parseStrBody_u2 (f : ℕ) (a1 a2 a3 a4 b1 b2 b3 b4 : Char) (rest : List Char)
    (v w : ℕ) (hv : hex4Val a1 a2 a3 a4 = some v) (hw : hex4Val b1 b2 b3 b4 = some w)
    (hv1 : 55296 ≤ v) (hv2 : v ≤ 56319) (hw1 : 56320 ≤ w) (hw2 : w ≤ 57343) :
    parseStrBody (f + 1)
      ('\\' :: 'u' :: a1 :: a2 :: a3 :: a4 :: '\\' :: 'u' :: b1 :: b2 :: b3 :: b4 :: rest) =
      (parseStrBody f rest).map
        (fun p => (Char.ofNat (65536 + (v - 55296) * 1024 + (w - 56320)) :: p.1, p.2)) := by
  simp only [parseStrBody, hv, hw]
  rw [if_pos ⟨hv1, hv2⟩, if_pos ⟨hw1, hw2⟩]

/-- String-body parsing inverts JSON escaping: with the closing quote and
any remainder appended, the parser returns the original body and the
remainder. -/
theorem parseStrBody_escape : ∀ (s : List Char) (fuel : ℕ) (r : List Char),
    s.length < fuel →
    parseStrBody fuel (escapeStr s ++ '"' :: r) = some (s, r) := by
  intro s
  induction s with
  | nil =>
    intro fuel r hf
    obtain ⟨f, rfl⟩ : ∃ f, fuel = f + 1 := ⟨fuel - 1, by omega⟩
    rfl
  | cons c s ih =>
    intro fuel r hf
    obtain ⟨f, rfl⟩ : ∃ f, fuel = f + 1 := ⟨fuel - 1, by omega⟩
    have hf' : s.length < f := by
      simp only [List.length_cons] at hf
      omega
    have ihr := ih f r hf'
    show parseStrBody (f + 1) ((escapeChar c ++ escapeStr s) ++ '"' :: r) = _
    rw [List.append_assoc]
    by_cases h1 : c = '"'
    · subst h1
      show (parseStrBody f (escapeStr s ++ '"' :: r)).map (fun p => ('"' :: p.1, p.2)) = _
      rw [ihr]
      rfl
    · by_cases h2 : c = '\\'
      · subst h2
        show (parseStrBody f (escapeStr s ++ '"' :: r)).map (fun p => ('\\' :: p.1, p.2)) = _
        rw [ihr]
        rfl
      · by_cases h3 : c.toNat = 8
        · have hc : escapeChar c = ['\\', 'b'] := by
            unfold escapeChar
            rw [if_neg h1, if_neg h2, if_pos h3]
          rw [hc]
          show (parseStrBody f (escapeStr s ++ '"' :: r)).map
            (fun p => (Char.ofNat 8 :: p.1, p.2)) = _
          rw [ihr, show Char.ofNat 8 = c from by rw [← h3]; exact Char.ofNat_toNat c]
          rfl
        · by_cases h4 : c.toNat = 9
          · have hc : escapeChar c = ['\\', 't'] := by
              unfold escapeChar
              rw [if_neg h1, if_neg h2, if_neg h3, if_pos h4]
            rw [hc]
            show (parseStrBody f (escapeStr s ++ '"' :: r)).map
              (fun p => (Char.ofNat 9 :: p.1, p.2)) = _
            rw [ihr, show Char.ofNat 9 = c from by rw [← h4]; exact Char.ofNat_toNat c]
            rfl
          · by_cases h5 : c.toNat = 10
            · have hc : escapeChar c = ['\\', 'n'] := by
                unfold escapeChar
                rw [if_neg h1, if_neg h2, if_neg h3, if_neg h4, if_pos h5]
              rw [hc]
              show (parseStrBody f (escapeStr s ++ '"' :: r)).map
                (fun p => (Char.ofNat 10 :: p.1, p.2)) = _
              rw [ihr, show Char.ofNat 10 = c from by rw [← h5]; exact Char.ofNat_toNat c]
              rfl
            · by_cases h6 : c.toNat = 12
              · have hc : escapeChar c = ['\\', 'f'] := by
                  unfold escapeChar
                  rw [if_neg h1, if_neg h2, if_neg h3, if_neg h4, if_neg h5, if_pos h6]
                rw [hc]
                show (parseStrBody f (escapeStr s ++ '"' :: r)).map
                  (fun p => (Char.ofNat 12 :: p.1, p.2)) = _
                rw [ihr, show Char.ofNat 12 = c from by rw [← h6]; exact Char.ofNat_toNat c]
                rfl
              · by_cases h7 : c.toNat = 13
                · have hc : escapeChar c = ['\\', 'r'] := by
                    unfold escapeChar
                    rw [if_neg h1, if_neg h2, if_neg h3, if_neg h4, if_neg h5, if_neg h6,
                      if_pos h7]
                  rw [hc]
                  show (parseStrBody f (escapeStr s ++ '"' :: r)).map
                    (fun p => (Char.ofNat 13 :: p.1, p.2)) = _
                  rw [ihr, show Char.ofNat 13 = c from by rw [← h7]; exact Char.ofNat_toNat c]
                  rfl
                · by_cases h8 : c.toNat < 32 ∨ 126 < c.toNat
                  · by_cases h9 : c.toNat ≤ 65535
                    · have hc : escapeChar c = '\\' :: 'u' :: hex4 c.toNat := by
                        unfold escapeChar
                        rw [if_neg h1, if_neg h2, if_neg h3, if_neg h4, if_neg h5, if_neg h6,
                          if_neg h7, if_pos h8, if_pos h9]
                      rw [hc]
                      rw [show (('\\' :: 'u' :: hex4 c.toNat) ++ (escapeStr s ++ '"' :: r)) =
                        '\\' :: 'u' :: hexChar (c.toNat / 4096 % 16) ::
                        hexChar (c.toNat / 256 % 16) :: hexChar (c.toNat / 16 % 16) ::
                        hexChar (c.toNat % 16) :: (escapeStr s ++ '"' :: r) from rfl]
                      rw [parseStrBody_u f _ _ _ _ _ c.toNat
                        (hex4Val_hex4 c.toNat (by omega))
                        (by rcases char_toNat_valid c with h | h
                            · left; omega
                            · right; omega)]
                      rw [ihr]
                      rw [Char.ofNat_toNat]
                      rfl
                    · have hc : escapeChar c =
                          ('\\' :: 'u' :: hex4 (55296 + (c.toNat - 65536) / 1024)) ++
                            ('\\' :: 'u' :: hex4 (56320 + (c.toNat - 65536) % 1024)) := by
                        unfold escapeChar
                        rw [if_neg h1, if_neg h2, if_neg h3, if_neg h4, if_neg h5, if_neg h6,
                          if_neg h7, if_pos h8, if_neg h9]
                      have hbig : c.toNat < 1114112 := by
                        rcases char_toNat_valid c with h | h
                        · omega
                        · omega
                      rw [hc]
                      rw [show ((('\\' :: 'u' :: hex4 (55296 + (c.toNat - 65536) / 1024)) ++
                          ('\\' :: 'u' :: hex4 (56320 + (c.toNat - 65536) % 1024))) ++
                          (escapeStr s ++ '"' :: r)) =
                        '\\' :: 'u' ::
                          hexChar ((55296 + (c.toNat - 65536) / 1024) / 4096 % 16) ::
                          hexChar ((55296 + (c.toNat - 65536) / 1024) / 256 % 16) ::
                          hexChar ((55296 + (c.toNat - 65536) / 1024) / 16 % 16) ::
                          hexChar ((55296 + (c.toNat - 65536) / 1024) % 16) ::
                        '\\' :: 'u' ::
                          hexChar ((56320 + (c.toNat - 65536) % 1024) / 4096 % 16) ::
                          hexChar ((56320 + (c.toNat - 65536) % 1024) / 256 % 16) ::
                          hexChar ((56320 + (c.toNat - 65536) % 1024) / 16 % 16) ::
                          hexChar ((56320 + (c.toNat - 65536) % 1024) % 16) ::
                          (escapeStr s ++ '"' :: r) from rfl]
                      rw [parseStrBody_u2 f _ _ _ _ _ _ _ _ _
                        (55296 + (c.toNat - 65536) / 1024) (56320 + (c.toNat - 65536) % 1024)
                        (hex4Val_hex4 _ (by omega)) (hex4Val_hex4 _ (by omega))
                        (by omega) (by omega) (by omega) (by omega)]
                      rw [ihr]
                      rw [show (65536 + ((55296 + (c.toNat - 65536) / 1024) - 55296) * 1024 +
                          ((56320 + (c.toNat - 65536) % 1024) - 56320)) = c.toNat from by
                        omega]
                      rw [Char.ofNat_toNat]
                      rfl
                  · have hc : escapeChar c = [c] := by
                      unfold escapeChar
                      rw [if_neg h1, if_neg h2, if_neg h3, if_neg h4, if_neg h5, if_neg h6,
                        if_neg h7, if_neg h8]
                    rw [hc]
                    rw [show ([c] ++ (escapeStr s ++ '"' :: r)) =
                      c :: (escapeStr s ++ '"' :: r) from rfl]
                    rw [parseStrBody_raw f c _ h1 h2]
                    rw [if_neg (by push_neg at h8; omega)]
                    rw [ihr]
                    rfl

/-- A full JSON string literal followed by any remainder parses back to
the original body and the remainder. -/
theorem parseJsonString_jsonStr (s X : List Char) :
    parseJsonString (jsonStr s ++ X) = some (s, X) := by
  show parseStrBody ((escapeStr s ++ ['"']) ++ X).length ((escapeStr s ++ ['"']) ++ X) = _
  rw [show ((escapeStr s ++ ['"']) ++ X) = escapeStr s ++ '"' :: X from by
    rw [List.append_assoc]; rfl]
  apply parseStrBody_escape
  have := escapeStr_length_ge s
  rw [List.length_append]
  simp only [List.length_cons]
  omega

/-- Decimal digit characters carry their value in the ASCII code. -/
theorem digitChar_toNat : ∀ d < 10, (Nat.digitChar d).toNat = 48 + d := by decide

/-- The greedy digit reader consumes exactly a rendered digit run and
accumulates its value, stopping at the first non-digit. -/
theorem parseNatAux_spec : ∀ (ds : List ℕ) (fuel : ℕ) (r : List Char) (acc : ℕ),
    (∀ d ∈ ds, d < 10) → ds.length ≤ fuel →
    (∀ ch ∈ r.head?, ¬(48 ≤ ch.toNat ∧ ch.toNat ≤ 57)) →
    parseNatAux fuel (ds.map Nat.digitChar ++ r) acc =
      (ds.foldl (fun a d => a * 10 + d) acc, r) := by
  intro ds
  induction ds with
  | nil =>
    intro fuel r acc _ _ hr
    cases fuel with
    | zero => rfl
    | succ f =>
      cases r with
      | nil => rfl
      | cons ch r2 =>
        show parseNatAux (f + 1) (ch :: r2) acc = (acc, ch :: r2)
        rw [show parseNatAux (f + 1) (ch :: r2) acc =
          if 48 ≤ ch.toNat ∧ ch.toNat ≤ 57 then
            parseNatAux f r2 (acc * 10 + (ch.toNat - 48))
          else (acc, ch :: r2) from rfl]
        rw [if_neg (hr ch rfl)]
  | cons d ds ih =>
    intro fuel r acc hds hlen hr
    cases fuel with
    | zero => simp at hlen
    | succ f =>
      have hd : d < 10 := hds d (by simp)
      show parseNatAux (f + 1) (Nat.digitChar d :: (ds.map Nat.digitChar ++ r)) acc = _
      rw [show parseNatAux (f + 1) (Nat.digitChar d :: (ds.map Nat.digitChar ++ r)) acc =
        if 48 ≤ (Nat.digitChar d).toNat ∧ (Nat.digitChar d).toNat ≤ 57 then
          parseNatAux f (ds.map Nat.digitChar ++ r) (acc * 10 + ((Nat.digitChar d).toNat - 48))
        else (acc, Nat.digitChar d :: (ds.map Nat.digitChar ++ r)) from rfl]
      rw [if_pos (by rw [digitChar_toNat d hd]; omega)]
      rw [digitChar_toNat d hd]
      rw [show 48 + d - 48 = d from by omega]
      rw [ih f r (acc * 10 + d) (fun x hx => hds x (by simp [hx]))
        (by simp only [List.length_cons] at hlen; omega) hr]
      rfl

/-- The two digit-fold orders agree. -/
theorem foldr_digits_comm : ∀ l : List ℕ,
    l.foldr (fun d acc => acc * 10 + d) 0 = l.foldr (fun d acc => d + 10 * acc) 0 := by
  intro l
  induction l with
  | nil => rfl
  | cons d l ih =>
    simp only [List.foldr_cons, ih]
    omega

/-- The decimal rendering of a natural is a nonempty digit run whose
most-significant-first fold recovers the number. -/
theorem natStr_digits (n : ℕ) : ∃ ds : List ℕ,
    natStr n = ds.map Nat.digitChar ∧ (∀ d ∈ ds, d < 10) ∧ ds ≠ [] ∧
      ds.foldl (fun a d => a * 10 + d) 0 = n := by
  by_cases h : n = 0
  · subst h
    exact ⟨[0], rfl, by decide, by decide, rfl⟩
  · refine ⟨(natDigits n).reverse, ?_, ?_, ?_, ?_⟩
    · rw [natStr, if_neg h, List.map_reverse]
    · intro d hd
      exact natDigitsF_lt n n d (List.mem_reverse.mp hd)
    · intro hnil
      have hemp : natDigits n = [] := by
        have := congrArg List.reverse hnil
        simpa using this
      obtain ⟨m, rfl⟩ : ∃ m, n = m + 1 := ⟨n - 1, by omega⟩
      rw [natDigits] at hemp
      rw [show natDigitsF (m + 1) (m + 1) = if m + 1 = 0 then [] else
        (m + 1) % 10 :: natDigitsF m ((m + 1) / 10) from rfl, if_neg (by omega)] at hemp
      cases hemp
    · rw [List.foldl_reverse]
      rw [show (natDigits n).foldr (fun x y => y * 10 + x) 0 =
        (natDigits n).foldr (fun d acc => acc * 10 + d) 0 from rfl]
      rw [foldr_digits_comm]
      exact natDigitsF_foldr n n le_rfl

/-- Digit characters are not the minus sign. -/
theorem digitChar_ne_minus (d : ℕ) (hd : d < 10) : Nat.digitChar d ≠ '-' := by
  intro h
  have h2 := congrArg Char.toNat h
  rw [digitChar_toNat d hd, show ('-').toNat = 45 from rfl] at h2
  omega

/-- Integer parsing inverts the decimal rendering when the remainder does
not begin with a digit. -/
theorem parseInt_intStr (z : ℤ) (r : List Char)
    (hr : ∀ ch ∈ r.head?, ¬(48 ≤ ch.toNat ∧ ch.toNat ≤ 57)) :
    parseInt (intStr z ++ r) = some (z, r) := by
  obtain ⟨ds, hmap, hlt, hne, hfold⟩ := natStr_digits z.natAbs
  obtain ⟨d, ds2, rfl⟩ : ∃ d ds2, ds = d :: ds2 := by
    cases ds with
    | nil => exact absurd rfl hne
    | cons d ds2 => exact ⟨d, ds2, rfl⟩
  have hd : d < 10 := hlt d (by simp)
  by_cases hz : z < 0
  · rw [intStr, if_pos hz, hmap]
    show (if 48 ≤ (Nat.digitChar d).toNat ∧ (Nat.digitChar d).toNat ≤ 57 then
        some (-(((parseNatAux ((d :: ds2).map Nat.digitChar ++ r).length
            ((d :: ds2).map Nat.digitChar ++ r) 0).1 : ℤ)),
          (parseNatAux ((d :: ds2).map Nat.digitChar ++ r).length
            ((d :: ds2).map Nat.digitChar ++ r) 0).2)
      else none) = some (z, r)
    rw [if_pos (by rw [digitChar_toNat d hd]; omega)]
    rw [parseNatAux_spec (d :: ds2) _ r 0 hlt (by simp) hr]
    show some (-((List.foldl (fun a d => a * 10 + d) 0 (d :: ds2) : ℕ) : ℤ), r) = some (z, r)
    rw [hfold]
    rw [show (-(z.natAbs : ℤ)) = z from by omega]
  · rw [intStr, if_neg hz, hmap]
    show parseInt (Nat.digitChar d :: (ds2.map Nat.digitChar ++ r)) = _
    simp only [parseInt]
    rw [if_neg (digitChar_ne_minus d hd)]
    rw [if_pos (by rw [digitChar_toNat d hd]; omega)]
    rw [show (Nat.digitChar d :: (ds2.map Nat.digitChar ++ r)) =
      ((d :: ds2).map Nat.digitChar ++ r) from rfl]
    rw [parseNatAux_spec (d :: ds2) _ r 0 hlt (by simp) hr]
    show some (((List.foldl (fun a d => a * 10 + d) 0 (d :: ds2) : ℕ) : ℤ), r) = some (z, r)
    rw [hfold]
    rw [show ((z.natAbs : ℤ)) = z from by omega]

/-- A literal is consumed from the front of its own extension. -/
theorem isPrefixOf_append (pat r : List Char) : pat.isPrefixOf (pat ++ r) = true := by
  induction pat with
  | nil => cases r <;> rfl
  | cons c pat ih => simp [List.isPrefixOf, ih]

/-- `expectPre` consumes an expected literal and returns the remainder. -/
theorem expectPre_append (pat r : List Char) : expectPre pat (pat ++ r) = some r := by
  unfold expectPre
  rw [if_pos (isPrefixOf_append pat r), List.drop_left]

/-- `json.loads` inverts `json.dumps` on the cursor object. -/
theorem parseCursorJson_dumps (cur : Cursor) :
    parseCursorJson (cursorJson cur) = some cur := by
  obtain ⟨d, rid, src⟩ := cur
  have hcomma : ∀ ch ∈ ((", \"src\": ".data ++ (jsonStr src ++ "\x7d".data)).head?),
      ¬(48 ≤ ch.toNat ∧ ch.toNat ≤ 57) := by
    intro ch hch
    rw [show (", \"src\": ".data ++ (jsonStr src ++ "\x7d".data)).head? =
      some ',' from rfl] at hch
    simp only [Option.mem_def, Option.some.injEq] at hch
    subst hch
    decide
  have hassoc : cursorJson ⟨d, rid, src⟩ =
      "\x7b\"d\": ".data ++ (jsonStr d ++ (", \"id\": ".data ++ (intStr rid ++
        (", \"src\": ".data ++ (jsonStr src ++ "\x7d".data))))) := by
    unfold cursorJson
    simp only [List.append_assoc]
  rw [hassoc]
  simp only [parseCursorJson, expectPre_append, Option.some_bind, parseJsonString_jsonStr]
  rw [parseInt_intStr rid _ hcomma]
  simp only [Option.some_bind, expectPre_append, parseJsonString_jsonStr]
  simp


/-- C9. For every cursor value (production date, record id, source),
`_decode_cursor` applied to `_encode_cursor`'s token returns exactly the
original value; and corrupted or non-decodable tokens — wrong base64
padding, text with no base64 characters at all, or valid base64 whose
bytes are not the JSON object — decode to `none` (the code's "invalid"
result) rather than raising: `_decode_cursor` is a total function into
`Option`. -/
theorem cursor_roundtrip_and_corrupt_none :
    (∀ cur : Cursor, _decode_cursor (_encode_cursor cur.d cur.id cur.src) = some cur)
    ∧ _decode_cursor "AAA".data = none
    ∧ _decode_cursor "!!!".data = none
    ∧ _decode_cursor "AAAA".data = none := by
  refine ⟨?_, rfl, rfl, rfl⟩
  intro cur
  unfold _encode_cursor _decode_cursor
  rw [b64decode_encode _ (by
    intro b hb
    rcases List.mem_map.mp hb with ⟨c, hc, rfl⟩
    have := cursorJson_ascii _ c hc
    omega)]
  rw [Option.some_bind]
  rw [bytesAscii_asciiBytes _ (fun c hc => cursorJson_ascii _ c hc)]
  rw [Option.some_bind]
  rw [parseCursorJson_dumps]

/-- C4 witness: with mtimes (100, 0), a cold call at time 0 from an empty
memo, then a call at time 1 (memo lapsed, version recomputed, same
rounding), returns the cached result. -/
theorem api_cache_hit_and_rounded_invalidation_witness :
    (1 : ℚ) < 0 + 300
    ∧ (api_cache_call_memo 300 1 "items".data "q".data 100 0
        (api_cache_call_memo (α := ℕ) 300 0 "items".data "q".data 100 0 ⟨none, 0⟩ 1 []).2.2.2
        2
        (api_cache_call_memo (α := ℕ) 300 0 "items".data "q".data 100 0
          ⟨none, 0⟩ 1 []).2.1).1 = 1 :=
  ⟨by norm_num,
    ((api_cache_hit_and_rounded_invalidation (α := ℕ)).1 300 0 1 "items".data "q".data
      100 0 1 2 0 (by norm_num)).2.2.1⟩
end Hub
